import Mathlib

/-!
Verification development for the fuego scenario execution engine
(`pkg/variables`, `pkg/assertions`, `pkg/execution`, `pkg/scenario`).

The Go code is shallowly embedded: Go dynamic `interface{}` values flowing
through captures, bodies and assertions are modelled by the closed variant
`GoValue` (JSON-decoded numbers are `float64` in Go, modelled here as exact
rationals); Go `map[string]T` values are modelled by association lists with
distinct-key update semantics; fallible Go functions returning `(T, error)`
are modelled with `Except String T`.  The external collaborators (HTTP
transport, the third-party regexp and JSON-schema libraries) are parameters
of the embedding, exactly as §6 of the design treats them.
-/

set_option maxHeartbeats 1000000

/-- Model of a Go `float64` as the exact fraction `num/den`.  Every float
the embedded engine manipulates originates from a decimal literal, so it is
an exact decimal fraction and the denominator is a positive power of ten by
construction; IEEE-754 rounding is not modelled (the values the claims
exercise are exactly representable).  The representation is kept
unnormalized so that all operations are plain integer arithmetic. -/
structure GoFloat : Type where
  num : Int
  den : Int
  deriving DecidableEq, Repr

namespace GoFloat

instance (n : Nat) : OfNat GoFloat n := ⟨⟨n, 1⟩⟩

def ofInt (n : Int) : GoFloat := ⟨n, 1⟩

def pow10 : Nat → Int
  | 0 => 1
  | k + 1 => 10 * pow10 k

def mulPow10 (a : GoFloat) (k : Nat) : GoFloat := ⟨a.num * pow10 k, a.den⟩

def divPow10 (a : GoFloat) (k : Nat) : GoFloat := ⟨a.num, a.den * pow10 k⟩

def neg (a : GoFloat) : GoFloat := ⟨-a.num, a.den⟩

/-- `float64` equality (`==`), by cross-multiplication (denominators are
positive). -/
def eqb (a b : GoFloat) : Bool := a.num * b.den == b.num * a.den

/-- `float64` strict order (`<`), by cross-multiplication. -/
def ltb (a b : GoFloat) : Bool := a.num * b.den < b.num * a.den

/-- `float64` order (`<=`), by cross-multiplication. -/
def leb (a b : GoFloat) : Bool := decide (a.num * b.den ≤ b.num * a.den)

/-- Integer division of `a` by `b > 0` truncating toward zero — Go's
`int(f)` conversion and `time.Duration.Milliseconds` rounding. -/
def truncDiv (a b : Int) : Int :=
  if a < 0 then -(((-a).toNat / b.toNat : Nat) : Int)
  else ((a.toNat / b.toNat : Nat) : Int)

/-- Go `int(f)`: truncation toward zero. -/
def trunc (a : GoFloat) : Int := truncDiv a.num a.den

end GoFloat

/-- `strings.Split(s, sep)` for a one-character separator (the only form the
engine uses, with `sep = "."`). -/
def splitOnChar (c : Char) : List Char → List (List Char)
  | [] => [[]]
  | x :: xs =>
    match splitOnChar c xs with
    | [] => [[]]
    | h :: t => if x = c then [] :: h :: t else (x :: h) :: t

/-- `unicode.IsSpace` restricted to Latin-1 (the characters
`'\t'..'\r'`, `' '`, U+0085, U+00A0); no placeholder the engine
interpolates contains the more exotic Unicode spaces. -/
def isGoSpace (c : Char) : Bool :=
  c = ' ' ∨ c = '\t' ∨ c = '\n' ∨ (Char.ofNat 11) = c ∨ (Char.ofNat 12) = c ∨
    c = '\r' ∨ (Char.ofNat 0x85) = c ∨ (Char.ofNat 0xA0) = c

/-- `strings.TrimSpace`. -/
def goTrimSpace (s : List Char) : List Char :=
  (((s.dropWhile isGoSpace).reverse.dropWhile isGoSpace)).reverse

/-- Go `<` on strings (byte-lexicographic; agrees with codepoint order on
the ASCII keys the engine renders). -/
def strLtb (a b : String) : Bool :=
  go a.toList b.toList
where
  go : List Char → List Char → Bool
    | [], [] => false
    | [], _ :: _ => true
    | _ :: _, [] => false
    | x :: xs, y :: ys =>
      if x < y then true else if y < x then false else go xs ys

/-- Closed tagged-variant model of a Go `interface{}` value as it occurs in
the engine: `nil`, `bool`, `int`/`int64`, `float64` (modelled as an exact
fraction), `string`, `[]interface{}`, `map[string]interface{}`. -/
inductive GoValue : Type
  | vnull : GoValue
  | vbool : Bool → GoValue
  | vint : Int → GoValue
  | vfloat : GoFloat → GoValue
  | vstr : String → GoValue
  | varr : List GoValue → GoValue
  | vobj : List (String × GoValue) → GoValue
  deriving Repr

namespace GoValue

/-- Association-list lookup, modelling Go `m[k]` on a `map[string]interface{}`
whose keys are distinct. -/
def lookupKey (m : List (String × GoValue)) (k : String) : Option GoValue :=
  match m with
  | [] => none
  | (k', v) :: rest => if k' = k then some v else lookupKey rest k

/-- Association-list update, modelling Go `m[k] = v` (overwrite or insert). -/
def setKey (m : List (String × GoValue)) (k : String) (v : GoValue) :
    List (String × GoValue) :=
  match m with
  | [] => [(k, v)]
  | (k', v') :: rest =>
      if k' = k then (k, v) :: rest else (k', v') :: setKey rest k v

end GoValue

namespace GoValue

/- Model of `reflect.DeepEqual` restricted to the value shapes of `GoValue`:
scalars compare by value within the same dynamic type (an `int` is never
`DeepEqual` to a `float64`), slices compare pointwise, maps compare by key
lookup (entry order irrelevant) with equal cardinality. -/
mutual

def deepEqual : GoValue → GoValue → Bool
  | .vnull, .vnull => true
  | .vbool a, .vbool b => a == b
  | .vint a, .vint b => a == b
  | .vfloat a, .vfloat b => GoFloat.eqb a b
  | .vstr a, .vstr b => a == b
  | .varr a, .varr b => deepEqualArr a b
  | .vobj a, .vobj b => a.length == b.length && deepEqualObj a b
  | _, _ => false

def deepEqualArr : List GoValue → List GoValue → Bool
  | [], [] => true
  | x :: xs, y :: ys => deepEqual x y && deepEqualArr xs ys
  | _, _ => false

def deepEqualObj : List (String × GoValue) → List (String × GoValue) → Bool
  | [], _ => true
  | (k, v) :: rest, b =>
      (match lookupKey b k with
       | some w => deepEqual v w
       | none => false) && deepEqualObj rest b

end

/-- Renders a float the way Go `fmt.Sprintf("%v", x)` does for a `float64`
with a terminating decimal expansion: integral values print with no decimal
point, otherwise the shortest terminating decimal.  (Go switches to exponent
notation for magnitudes outside `[1e-4, 1e21)`; no value rendered by the
claims reaches that regime, and every number the engine produces comes from
a decimal literal, so the non-terminating fallback below is unreachable.) -/
def goFmtFloat (q : GoFloat) : String :=
  match (List.range 100).find?
      (fun k => q.num * GoFloat.pow10 k % q.den == 0) with
  | some 0 => toString (GoFloat.truncDiv q.num q.den)
  | some k =>
      let n : Int := GoFloat.truncDiv (q.num * GoFloat.pow10 k) q.den
      let ds := (toString n.natAbs).toList
      let ds :=
        if ds.length ≤ k then List.replicate (k + 1 - ds.length) '0' ++ ds
        else ds
      String.mk ((if n < 0 then ['-'] else []) ++
        ds.take (ds.length - k) ++ '.' :: ds.drop (ds.length - k))
  | none => "~float~"

/-- Insertion sort of rendered map entries by key; Go's `fmt` prints map
entries in ascending key order. -/
def insertEntry (x : String × String) :
    List (String × String) → List (String × String)
  | [] => [x]
  | y :: ys => if strLtb x.1 y.1 then x :: y :: ys else y :: insertEntry x ys

def sortEntries : List (String × String) → List (String × String)
  | [] => []
  | x :: xs => insertEntry x (sortEntries xs)

/- Model of Go `fmt.Sprintf("%v", value)`: `<nil>` for nil, `true`/`false`,
decimal integers, floats per `goFmtFloat`, strings verbatim, slices as
space-separated elements in brackets, maps as `map[k:v ...]` with entries
sorted by key. -/
mutual

def goFmt : GoValue → String
  | .vnull => "<nil>"
  | .vbool b => if b then "true" else "false"
  | .vint n => toString n
  | .vfloat q => goFmtFloat q
  | .vstr s => s
  | .varr xs => "[" ++ " ".intercalate (goFmtArr xs) ++ "]"
  | .vobj m =>
      "map[" ++
        " ".intercalate ((sortEntries (goFmtObj m)).map
          (fun p => p.1 ++ ":" ++ p.2)) ++ "]"

def goFmtArr : List GoValue → List String
  | [] => []
  | x :: xs => goFmt x :: goFmtArr xs

def goFmtObj : List (String × GoValue) → List (String × String)
  | [] => []
  | (k, v) :: rest => (k, goFmt v) :: goFmtObj rest

end

end GoValue

open GoValue in
/-- `variables.Context`: the three-scope layered namespace (global, local,
step).  Go's `map[string]interface{}` scopes are modelled as association
lists with distinct keys (`setKey` overwrites in place).  The Go field
`local` is spelled `locals` because `local` is a Lean keyword. -/
structure VarContext : Type where
  global : List (String × GoValue)
  locals : List (String × GoValue)
  step : List (String × GoValue)

namespace VarContext

open GoValue

/-- `variables.NewContext` -/
def NewContext : VarContext := ⟨[], [], []⟩

/-- `Context.SetGlobal` -/
def SetGlobal (c : VarContext) (key : String) (value : GoValue) : VarContext :=
  { c with global := setKey c.global key value }

/-- `Context.SetLocal` -/
def SetLocal (c : VarContext) (key : String) (value : GoValue) : VarContext :=
  { c with locals := setKey c.locals key value }

/-- `Context.SetStep` -/
def SetStep (c : VarContext) (key : String) (value : GoValue) : VarContext :=
  { c with step := setKey c.step key value }

/-- `Context.Get`: check step scope first, then local, then global. -/
def Get (c : VarContext) (key : String) : Option GoValue :=
  match lookupKey c.step key with
  | some value => some value
  | none =>
    match lookupKey c.locals key with
    | some value => some value
    | none => lookupKey c.global key

/-- `Context.accessJSONPath`: re-serialize the value through JSON and look the
key up in the resulting map.  `json.Marshal` followed by `json.Unmarshal`
into `map[string]interface{}` succeeds exactly when the value is map-shaped
(a non-object JSON document does not unmarshal into a map), so every other
shape is a lookup failure.  (`GetNested` only reaches this fallback for
non-`vobj` values — its `map[string]interface{}` case fires first — so the
`vobj` branch here is kept only to mirror the Go function's behaviour.) -/
def accessJSONPath (data : GoValue) (key : String) : Option GoValue :=
  match data with
  | .vobj m => lookupKey m key
  | _ => none

/-- The segment-walking loop of `Context.GetNested` (`for _, part := range
parts[1:]`). -/
def navNested : GoValue → List String → Option GoValue
  | cur, [] => some cur
  | cur, part :: rest =>
    match cur with
    | .vobj m =>
      match lookupKey m part with
      | some v => navNested v rest
      | none => none
    | _ =>
      match accessJSONPath cur part with
      | some v => navNested v rest
      | none => none

/-- `Context.GetNested`: without a dot defers to `Get`; otherwise resolves
the first segment via `Get` (`strings.Split(path, ".")`) and walks the
remaining dotted segments. -/
def GetNested (c : VarContext) (path : String) : Option GoValue :=
  if ¬ path.toList.contains '.' then c.Get path
  else
    match (splitOnChar '.' path.toList).map String.mk with
    | [] => none
    | rootKey :: parts =>
      match c.Get rootKey with
      | none => none
      | some root => navNested root parts

/-- `Context.GetAll`: global, then local, then step, later entries
overwriting earlier ones by key. -/
def GetAll (c : VarContext) : List (String × GoValue) :=
  let result := c.global.foldl (fun acc p => setKey acc p.1 p.2) []
  let result := c.locals.foldl (fun acc p => setKey acc p.1 p.2) result
  c.step.foldl (fun acc p => setKey acc p.1 p.2) result

/-- `Context.ClearStep`: resets step scope to empty. -/
def ClearStep (c : VarContext) : VarContext := { c with step := [] }

/-- `Context.Clone`: copies global and local scope contents; step variables
are not cloned. -/
def Clone (c : VarContext) : VarContext :=
  { global := c.global, locals := c.locals, step := [] }

end VarContext

namespace VarContext

open GoValue

/-- The replacement callback of `Context.InterpolateString` applied to the
text captured by `([^}]+)`: `strings.TrimSpace`, strip a leading `env.`
(`strings.TrimPrefix`), resolve through `GetNested`, and render the value
with `fmt.Sprintf("%v", value)`; `none` means the variable was not found and
the original match is kept. -/
def resolvePlaceholder (c : VarContext) (inner : List Char) : Option String :=
  let raw := goTrimSpace inner
  let varName :=
    if ['e', 'n', 'v', '.'].isPrefixOf raw then raw.drop 4 else raw
  (c.GetNested (String.mk varName)).map goFmt

/-- The scan performed by `templateRegex.ReplaceAllStringFunc` with the
pattern `\$\{\{([^}]+)\}\}|\{\{([^}]+)\}\}`: at each position the
`${{name}}` alternative is tried (it can only start at `$`), then the
`{{name}}` alternative (only at `{`); `[^}]+` is a non-empty run of
non-`}` characters that must be followed by `}}`.  A successful match is
replaced (or kept verbatim when the variable does not resolve) and scanning
resumes after the match; otherwise scanning advances one character.  The
fuel argument only bounds recursion depth; every step consumes at least one
character, so the entry point's `length + 1` fuel is never exhausted. -/
def interpolateChars (c : VarContext) : Nat → List Char → List Char
  | 0, s => s
  | _, [] => []
  | fuel + 1, ch :: cs =>
    if ch = '$' ∧ cs.take 2 = ['{', '{'] then
      let t := cs.drop 2
      let inner := t.takeWhile (fun x => x ≠ '}')
      let rest := t.dropWhile (fun x => x ≠ '}')
      if inner ≠ [] ∧ rest.take 2 = ['}', '}'] then
        (match resolvePlaceholder c inner with
         | some rep => rep.toList
         | none => ch :: '{' :: '{' :: (inner ++ ['}', '}'])) ++
          interpolateChars c fuel (rest.drop 2)
      else ch :: interpolateChars c fuel cs
    else if ch = '{' ∧ cs.take 1 = ['{'] then
      let t := cs.drop 1
      let inner := t.takeWhile (fun x => x ≠ '}')
      let rest := t.dropWhile (fun x => x ≠ '}')
      if inner ≠ [] ∧ rest.take 2 = ['}', '}'] then
        (match resolvePlaceholder c inner with
         | some rep => rep.toList
         | none => ch :: '{' :: (inner ++ ['}', '}'])) ++
          interpolateChars c fuel (rest.drop 2)
      else ch :: interpolateChars c fuel cs
    else ch :: interpolateChars c fuel cs

/-- `Context.InterpolateString`: the second component is the returned
`error`, which is syntactically `nil` on the only return path. -/
def InterpolateString (c : VarContext) (input : String) :
    String × Option String :=
  (String.mk (interpolateChars c (input.toList.length + 1) input.toList),
    none)

end VarContext

/-! Model of `encoding/json.Unmarshal` into `interface{}`: JSON numbers all
decode to `float64` (`GoValue.vfloat`), objects to `map[string]interface{}`
(duplicate keys: the last occurrence wins), arrays to `[]interface{}`. -/

namespace GoJson

open GoValue

def isJsonWs (c : Char) : Bool :=
  c = ' ' ∨ c = '\t' ∨ c = '\n' ∨ c = '\r'

def skipWs (s : List Char) : List Char := s.dropWhile isJsonWs

def isDigit (c : Char) : Bool := '0' ≤ c ∧ c ≤ '9'

def isHexDigit (c : Char) : Bool :=
  isDigit c ∨ ('a' ≤ c ∧ c ≤ 'f') ∨ ('A' ≤ c ∧ c ≤ 'F')

def hexVal (c : Char) : Nat :=
  if isDigit c then c.toNat - '0'.toNat
  else if 'a' ≤ c ∧ c ≤ 'f' then c.toNat - 'a'.toNat + 10
  else c.toNat - 'A'.toNat + 10

def digitsToNat (ds : List Char) : Nat :=
  ds.foldl (fun acc c => acc * 10 + (c.toNat - '0'.toNat)) 0

/-- JSON string body after the opening quote; handles the standard escapes,
`\uXXXX` with surrogate-pair combining, and (like Go) replaces a lone
surrogate with U+FFFD. -/
def parseString : Nat → List Char → Except String (String × List Char)
  | 0, _ => .error "unexpected end of JSON input"
  | _, [] => .error "unexpected end of JSON input"
  | fuel + 1, c :: rest =>
    if c = '"' then .ok ("", rest)
    else if c = '\\' then
      match rest with
      | [] => .error "unexpected end of JSON input"
      | e :: rest' =>
        let simple : Option Char :=
          if e = '"' then some '"'
          else if e = '\\' then some '\\'
          else if e = '/' then some '/'
          else if e = 'b' then some (Char.ofNat 8)
          else if e = 'f' then some (Char.ofNat 12)
          else if e = 'n' then some '\n'
          else if e = 'r' then some '\r'
          else if e = 't' then some '\t'
          else none
        match simple with
        | some ch => do
          let (s, r) ← parseString fuel rest'
          .ok (String.mk (ch :: s.toList), r)
        | none =>
          if e = 'u' then
            match rest' with
            | h1 :: h2 :: h3 :: h4 :: rest'' =>
              if isHexDigit h1 ∧ isHexDigit h2 ∧ isHexDigit h3 ∧
                  isHexDigit h4 then
                let n := ((hexVal h1 * 16 + hexVal h2) * 16 + hexVal h3) * 16 +
                  hexVal h4
                if 0xD800 ≤ n ∧ n < 0xDC00 then
                  match rest'' with
                  | '\\' :: 'u' :: g1 :: g2 :: g3 :: g4 :: rest3 =>
                    if isHexDigit g1 ∧ isHexDigit g2 ∧ isHexDigit g3 ∧
                        isHexDigit g4 then
                      let m := ((hexVal g1 * 16 + hexVal g2) * 16 +
                        hexVal g3) * 16 + hexVal g4
                      if 0xDC00 ≤ m ∧ m < 0xE000 then do
                        let cp := 0x10000 + (n - 0xD800) * 0x400 + (m - 0xDC00)
                        let (s, r) ← parseString fuel rest3
                        .ok (String.mk (Char.ofNat cp :: s.toList), r)
                      else do
                        let (s, r) ← parseString fuel rest''
                        .ok (String.mk (Char.ofNat 0xFFFD :: s.toList), r)
                    else do
                      let (s, r) ← parseString fuel rest''
                      .ok (String.mk (Char.ofNat 0xFFFD :: s.toList), r)
                  | _ => do
                    let (s, r) ← parseString fuel rest''
                    .ok (String.mk (Char.ofNat 0xFFFD :: s.toList), r)
                else if 0xDC00 ≤ n ∧ n < 0xE000 then do
                  let (s, r) ← parseString fuel rest''
                  .ok (String.mk (Char.ofNat 0xFFFD :: s.toList), r)
                else do
                  let (s, r) ← parseString fuel rest''
                  .ok (String.mk (Char.ofNat n :: s.toList), r)
              else .error "invalid character in \\u escape"
            | _ => .error "unexpected end of JSON input"
          else .error "invalid escape character"
    else if c.toNat < 0x20 then .error "invalid character in string literal"
    else do
      let (s, r) ← parseString fuel rest
      .ok (String.mk (c :: s.toList), r)

/-- JSON number per the grammar `-? int frac? exp?`, decoded (as Go does for
`interface{}` targets) to a `float64`, modelled as the exact fraction. -/
def parseNumber (s : List Char) : Except String (GoFloat × List Char) :=
  let (neg, s1) :=
    match s with
    | '-' :: r => (true, r)
    | _ => (false, s)
  let intDigits := s1.takeWhile isDigit
  let s2 := s1.dropWhile isDigit
  if intDigits = [] then .error "invalid number literal"
  else if intDigits.length > 1 ∧ intDigits.head? = some '0' then
    .error "invalid number literal"
  else
    let (fracDigits, s3) :=
      match s2 with
      | '.' :: r => (r.takeWhile isDigit, r.dropWhile isDigit)
      | _ => ([], s2)
    if s2.head? = some '.' ∧ fracDigits = [] then .error "invalid number literal"
    else
      let expPart : Except String (Int × List Char) :=
        match s3 with
        | 'e' :: r | 'E' :: r =>
          let (eneg, r1) :=
            match r with
            | '-' :: r' => (true, r')
            | '+' :: r' => (false, r')
            | _ => (false, r)
          let eds := r1.takeWhile isDigit
          if eds = [] then .error "invalid number literal"
          else
            let e : Int := digitsToNat eds
            .ok ((if eneg then -e else e), r1.dropWhile isDigit)
        | _ => .ok (0, s3)
      match expPart with
      | .error e => .error e
      | .ok (e, rest) =>
        let mantissa : Nat := digitsToNat (intDigits ++ fracDigits)
        let scale : Int := e - fracDigits.length
        let mag : GoFloat :=
          if scale ≥ 0 then (GoFloat.ofInt mantissa).mulPow10 scale.toNat
          else (GoFloat.ofInt mantissa).divPow10 (-scale).toNat
        .ok (if neg then mag.neg else mag, rest)

end GoJson

namespace GoJson

open GoValue

mutual

def parseValue : Nat → List Char → Except String (GoValue × List Char)
  | 0, _ => .error "unexpected end of JSON input"
  | fuel + 1, s =>
    match skipWs s with
    | [] => .error "unexpected end of JSON input"
    | 'n' :: 'u' :: 'l' :: 'l' :: rest => .ok (.vnull, rest)
    | 't' :: 'r' :: 'u' :: 'e' :: rest => .ok (.vbool true, rest)
    | 'f' :: 'a' :: 'l' :: 's' :: 'e' :: rest => .ok (.vbool false, rest)
    | '"' :: rest => do
      let (str, r) ← parseString fuel rest
      .ok (.vstr str, r)
    | '[' :: rest =>
      (match skipWs rest with
       | ']' :: r => .ok (.varr [], r)
       | _ => do
         let (elems, r) ← parseArrayItems fuel rest
         .ok (.varr elems, r))
    | '{' :: rest =>
      (match skipWs rest with
       | '}' :: r => .ok (.vobj [], r)
       | _ => do
         let (members, r) ← parseObjectItems fuel rest
         -- `m[key] = value` executes per member in textual order, so a
         -- repeated key keeps its last value
         .ok (.vobj (members.foldl (fun acc p => setKey acc p.1 p.2) []), r))
    | other => do
      let (q, r) ← parseNumber other
      .ok (.vfloat q, r)

def parseArrayItems : Nat → List Char → Except String (List GoValue × List Char)
  | 0, _ => .error "unexpected end of JSON input"
  | fuel + 1, s => do
    let (v, r) ← parseValue fuel s
    match skipWs r with
    | ',' :: r' => do
      let (vs, r'') ← parseArrayItems fuel r'
      .ok (v :: vs, r'')
    | ']' :: r' => .ok ([v], r')
    | _ => .error "invalid character after array element"

def parseObjectItems : Nat → List Char →
    Except String (List (String × GoValue) × List Char)
  | 0, _ => .error "unexpected end of JSON input"
  | fuel + 1, s =>
    match skipWs s with
    | '"' :: rest => do
      let (key, r) ← parseString fuel rest
      match skipWs r with
      | ':' :: r' => do
        let (v, r'') ← parseValue fuel r'
        match skipWs r'' with
        | ',' :: r3 => do
          let (members, r4) ← parseObjectItems fuel r3
          .ok ((key, v) :: members, r4)
        | '}' :: r3 => .ok ([(key, v)], r3)
        | _ => .error "invalid character after object member"
      | _ => .error "invalid character after object key"
    | _ => .error "invalid character looking for object key"

end

/-- `json.Unmarshal(data, &v)` with `v : interface{}`: decode one value and
require only whitespace after it. -/
def unmarshal (s : String) : Except String GoValue := do
  let cs := s.toList
  let (v, rest) ← parseValue (cs.length + 1) cs
  if skipWs rest = [] then .ok v
  else .error "invalid character after top-level value"

end GoJson

/-- The response map built by `Engine.executeHTTPStep` from a
`protocols.HTTPResponse`; it always carries the keys `status_code`,
`headers`, `body`, `body_text`, `duration` and `size`, so it is modelled as
a fixed-shape record (raw body bytes are not consumed by any embedded
operation and are omitted; the duration is kept in nanoseconds, the unit of
`time.Duration`). -/
structure GoResponse : Type where
  statusCode : Int
  headers : List (String × List String)
  bodyText : String
  durationNs : Int
  size : Int

/-- Lookup of a header name in the `map[string][]string` header multi-map
(exact case, as stored). -/
def headerLookup (hs : List (String × List String)) (k : String) :
    Option (List String) :=
  match hs with
  | [] => none
  | (k', v) :: rest => if k' = k then some v else headerLookup rest k

namespace Variables

open GoValue

/-- `strconv.Atoi`: optional sign followed by one or more digits, nothing
else.  (Machine-width overflow is not modelled; no path in the engine feeds
`Atoi` an out-of-range index and also survives the subsequent bounds
check.) -/
def goAtoi (s : String) : Option Int :=
  let (neg, ds) :=
    match s.toList with
    | '-' :: r => (true, r)
    | '+' :: r => (false, r)
    | l => (false, l)
  if ds ≠ [] ∧ ds.all GoJson.isDigit then
    some (if neg then -(GoJson.digitsToNat ds : Int) else GoJson.digitsToNat ds)
  else none

/-- Go's `%T` rendering of the dynamic type of a decoded value, used in the
`cannot access property` error message. -/
def goTypeName : GoValue → String
  | .vnull => "<nil>"
  | .vbool _ => "bool"
  | .vint _ => "int"
  | .vfloat _ => "float64"
  | .vstr _ => "string"
  | .varr _ => "[]interface {}"
  | .vobj _ => "map[string]interface {}"

/-- `variables.getNestedValue`: walk dot-separated segments; objects by key
(absent key is an error), arrays by integer index (non-integer segment or
out-of-bounds index is an error), anything else is an error. -/
def getNestedValue (data : GoValue) (path : String) : Except String GoValue :=
  go data ((splitOnChar '.' path.toList).map String.mk)
where
  go : GoValue → List String → Except String GoValue
    | cur, [] => .ok cur
    | cur, part :: rest =>
      match cur with
      | .vobj m =>
        match lookupKey m part with
        | some v => go v rest
        | none => .error ("key " ++ part ++ " not found")
      | .varr v =>
        match goAtoi part with
        | none => .error ("invalid array index: " ++ part)
        | some index =>
          if h : 0 ≤ index ∧ index < (v.length : Int) then
            go (v.get ⟨index.toNat, by omega⟩) rest
          else .error ("array index out of bounds: " ++ toString index)
      | other => .error ("cannot access property " ++ part ++ " on " ++
          goTypeName other)

/-- `variables.extractJSONPath`: parse the body text as JSON, then walk the
dotted path. -/
def extractJSONPath (response : GoResponse) (path : String) :
    Except String GoValue :=
  match GoJson.unmarshal response.bodyText with
  | .error e => .error ("failed to parse JSON body: " ++ e)
  | .ok bodyData => getNestedValue bodyData path

/-- `variables.extractHeader`: first value of the named header; an absent
header or empty value list is an error. -/
def extractHeader (response : GoResponse) (headerName : String) :
    Except String GoValue :=
  match headerLookup response.headers headerName with
  | some (v :: _) => .ok (.vstr v)
  | _ => .error ("header " ++ headerName ++ " not found")

/-- `variables.ExtractFromResponse`: dispatch on the extractor text
(`strings.HasPrefix` on `json:`, `header:`, `status`, `body`). -/
def ExtractFromResponse (response : GoResponse) (extractor : String) :
    Except String GoValue :=
  let ecs := extractor.toList
  if "json:".toList.isPrefixOf ecs then
    extractJSONPath response (String.mk (ecs.drop 5))
  else if "header:".toList.isPrefixOf ecs then
    extractHeader response (String.mk (ecs.drop 7))
  else if "status".toList.isPrefixOf ecs then .ok (.vint response.statusCode)
  else if "body".toList.isPrefixOf ecs then .ok (.vstr response.bodyText)
  else .error ("unsupported extractor: " ++ extractor)

end Variables

/-- The first occurrence of `pat` in `s`, as the text before it and the text
after it. -/
def findSplit : List Char → List Char → Option (List Char × List Char)
  | s, pat =>
    if pat.isPrefixOf s then some ([], s.drop pat.length)
    else
      match s with
      | [] => none
      | c :: cs =>
        match findSplit cs pat with
        | some (b, a) => some (c :: b, a)
        | none => none

/-- `strings.Contains`. -/
def containsSub (s pat : String) : Bool :=
  (findSplit s.toList pat.toList).isSome

/-- `strings.Replace(s, old, new, 1)`. -/
def replaceFirst (s old new : String) : String :=
  match findSplit s.toList old.toList with
  | some (b, a) => String.mk (b ++ new.toList ++ a)
  | none => s

/-- `strings.Trim(s, string(c))`: remove every leading and trailing
occurrence of the character. -/
def trimChar (c : Char) (s : String) : String :=
  String.mk ((((s.toList.dropWhile (fun x => x = c)).reverse.dropWhile
    (fun x => x = c)).reverse))

/-- The `regexp` standard-library surface the assertion engine consumes,
kept abstract (it is a third-party collaborator of the embedded core):
`findSubmatch pattern text` is `regexp.Compile` + `FindStringSubmatch`
(`.error` = invalid pattern syntax, `.ok []` = no match, `.ok (m :: gs)` =
whole match followed by capture-group values), and `matchString` is
`regexp.MatchString`. -/
structure RegexLib : Type where
  findSubmatch : String → String → Except String (List String)
  matchString : String → String → Except String Bool

/-- The `gojsonschema` surface: `validate schemaJson documentJson` returns
the list of violation messages (empty = valid) or an error when validation
itself cannot run. -/
structure SchemaLib : Type where
  validate : String → String → Except String (List String)

namespace GoMarshal

open GoValue

/-- `encoding/json.Marshal` of a string, with Go's default HTML escaping. -/
def marshalString (s : String) : String :=
  let esc : Char → List Char := fun c =>
    if c = '"' then ['\\', '"']
    else if c = '\\' then ['\\', '\\']
    else if c = '\n' then ['\\', 'n']
    else if c = '\r' then ['\\', 'r']
    else if c = '\t' then ['\\', 't']
    else if c.toNat < 0x20 then
      ['\\', 'u', '0', '0',
        (Nat.digitChar (c.toNat / 16)), (Nat.digitChar (c.toNat % 16))]
    else if c = '<' then ['\\', 'u', '0', '0', '3', 'c']
    else if c = '>' then ['\\', 'u', '0', '0', '3', 'e']
    else if c = '&' then ['\\', 'u', '0', '0', '2', '6']
    else [c]
  "\x22" ++ String.mk (s.toList.flatMap esc) ++ "\x22"

/- `encoding/json.Marshal` over decoded values: numbers in shortest decimal
form, maps with keys in sorted order.  No `GoValue` shape is unsupported, so
the Go error result is always nil and is omitted. -/
mutual

def marshal : GoValue → String
  | .vnull => "null"
  | .vbool b => if b then "true" else "false"
  | .vint n => toString n
  | .vfloat q => goFmtFloat q
  | .vstr s => marshalString s
  | .varr xs => "[" ++ ",".intercalate (marshalArr xs) ++ "]"
  | .vobj m =>
      "\x7b" ++
        ",".intercalate ((sortEntries (marshalObj m)).map
          (fun p => marshalString p.1 ++ ":" ++ p.2)) ++ "\x7d"

def marshalArr : List GoValue → List String
  | [] => []
  | x :: xs => marshal x :: marshalArr xs

def marshalObj : List (String × GoValue) → List (String × String)
  | [] => []
  | (k, v) :: rest => (k, marshal v) :: marshalObj rest

end

end GoMarshal

/-- `scenario.Assertion`: type, field, operator, expected value, optional
flag, description.  A YAML-absent `value` is a nil interface, modelled as
`GoValue.vnull`. -/
structure Assertion : Type where
  type : String
  field : String
  operator : String
  value : GoValue
  description : String
  optional : Bool

namespace Assertions

open GoValue

/-- `assertions.Result` (pass/fail, message, expected, actual; the
wall-clock `Duration` field is not modelled).  `Expected`/`Actual` are nil
interfaces until assigned, modelled as `none`. -/
structure Result : Type where
  passed : Bool
  message : String
  expected : Option GoValue
  actual : Option GoValue

/-- `Engine.getNestedValue` (assertions package): like the variables-package
walker but an empty path returns the whole document. -/
def getNestedValue (data : GoValue) (path : String) : Except String GoValue :=
  if path = "" then .ok data
  else Variables.getNestedValue data path

/-- `Engine.extractStatusCode` -/
def extractStatusCode (response : GoResponse) : Except String GoValue :=
  .ok (.vint response.statusCode)

/-- `Engine.extractHeader` -/
def extractHeader (response : GoResponse) (headerName : String) :
    Except String GoValue :=
  match headerLookup response.headers headerName with
  | some (v :: _) => .ok (.vstr v)
  | _ => .error ("header " ++ headerName ++ " not found")

/-- `Engine.extractBody` -/
def extractBody (response : GoResponse) : Except String GoValue :=
  .ok (.vstr response.bodyText)

/-- `Engine.extractJSONPath` -/
def extractJSONPath (response : GoResponse) (path : String) :
    Except String GoValue := do
  match GoJson.unmarshal response.bodyText with
  | .error e => .error ("failed to parse JSON: " ++ e)
  | .ok jsonData => getNestedValue jsonData path

/-- `Engine.extractRegex`: compile the pattern (invalid syntax is an error),
take the first match; with capture groups the value is the group list
(excluding group 0), otherwise the whole match. -/
def extractRegex (lib : RegexLib) (response : GoResponse) (pattern : String) :
    Except String GoValue :=
  match lib.findSubmatch pattern response.bodyText with
  | .error e => .error ("invalid regex pattern: " ++ e)
  | .ok [] => .error ("no matches found for pattern: " ++ pattern)
  | .ok [m] => .ok (.vstr m)
  | .ok (_ :: groups) => .ok (.varr (groups.map .vstr))

/-- `Engine.extractResponseTime`: elapsed time in integer milliseconds
(`time.Duration.Milliseconds`; durations are nonnegative, so divisions
agree). -/
def extractResponseTime (response : GoResponse) : Except String GoValue :=
  .ok (.vint (GoFloat.truncDiv response.durationNs 1000000))

/-- `Engine.extractResponseSize` -/
def extractResponseSize (response : GoResponse) : Except String GoValue :=
  .ok (.vint response.size)

/-- `Engine.extractValue`: dispatch on the assertion type. -/
def extractValue (lib : RegexLib) (assertion : Assertion)
    (response : GoResponse) : Except String GoValue :=
  match assertion.type with
  | "status" | "status_code" => extractStatusCode response
  | "header" => extractHeader response assertion.field
  | "body" => extractBody response
  | "json" | "json_path" => extractJSONPath response assertion.field
  | "xpath" => .error "XPath assertions not yet implemented"
  | "regex" => extractRegex lib response assertion.field
  | "response_time" => extractResponseTime response
  | "size" => extractResponseSize response
  | "json_schema" => extractBody response
  | other => .error ("unsupported assertion type: " ++ other)

/-- `Engine.isNumeric` (all Go integer and float widths collapse onto
`vint`/`vfloat`). -/
def isNumeric : GoValue → Bool
  | .vint _ => true
  | .vfloat _ => true
  | _ => false

/-- `Engine.toFloat64` -/
def toFloat64 : GoValue → GoFloat
  | .vint n => GoFloat.ofInt n
  | .vfloat q => q
  | _ => GoFloat.ofInt 0

/-- `Engine.getLength`: byte length for strings (Go `len` on a string counts
bytes), element count for slices, key count for maps, otherwise 0. -/
def getLength : GoValue → Int
  | .vstr s => (s.utf8ByteSize : Int)
  | .varr v => (v.length : Int)
  | .vobj m => (m.length : Int)
  | _ => 0


/-- `Engine.compareEqual`: deep equality, then float-value equality for
numeric pairs, then string-form equality; otherwise a failure message. -/
def compareEqual (actual expected : GoValue) : Bool × String :=
  if deepEqual actual expected then
    (true, "value equals " ++ goFmt expected)
  else if isNumeric actual ∧ isNumeric expected ∧
      GoFloat.eqb (toFloat64 actual) (toFloat64 expected) then
    (true, "value equals " ++ goFmt expected)
  else if goFmt actual = goFmt expected then
    (true, "value equals " ++ goFmt expected)
  else
    (false, "expected " ++ goFmt expected ++ " but got " ++ goFmt actual)

/-- `Engine.compareGreater` -/
def compareGreater (actual expected : GoValue) : Bool × String :=
  if ¬ (isNumeric actual ∧ isNumeric expected) then
    (false, "comparison requires numeric values")
  else if GoFloat.ltb (toFloat64 expected) (toFloat64 actual) then
    (true, "value " ++ goFmt actual ++ " is greater than " ++ goFmt expected)
  else
    (false, "expected value greater than " ++ goFmt expected ++ " but got " ++
      goFmt actual)

/-- `Engine.compareGreaterEqual` -/
def compareGreaterEqual (actual expected : GoValue) : Bool × String :=
  if ¬ (isNumeric actual ∧ isNumeric expected) then
    (false, "comparison requires numeric values")
  else if GoFloat.leb (toFloat64 expected) (toFloat64 actual) then
    (true, "value " ++ goFmt actual ++ " is greater than or equal to " ++
      goFmt expected)
  else
    (false, "expected value greater than or equal to " ++ goFmt expected ++
      " but got " ++ goFmt actual)

/-- `Engine.compareLess` -/
def compareLess (actual expected : GoValue) : Bool × String :=
  if ¬ (isNumeric actual ∧ isNumeric expected) then
    (false, "comparison requires numeric values")
  else if GoFloat.ltb (toFloat64 actual) (toFloat64 expected) then
    (true, "value " ++ goFmt actual ++ " is less than " ++ goFmt expected)
  else
    (false, "expected value less than " ++ goFmt expected ++ " but got " ++
      goFmt actual)

/-- `Engine.compareLessEqual` -/
def compareLessEqual (actual expected : GoValue) : Bool × String :=
  if ¬ (isNumeric actual ∧ isNumeric expected) then
    (false, "comparison requires numeric values")
  else if GoFloat.leb (toFloat64 actual) (toFloat64 expected) then
    (true, "value " ++ goFmt actual ++ " is less than or equal to " ++
      goFmt expected)
  else
    (false, "expected value less than or equal to " ++ goFmt expected ++
      " but got " ++ goFmt actual)

/-- `Engine.compareContains`: substring containment on the `%v` forms. -/
def compareContains (actual expected : GoValue) : Bool × String :=
  if containsSub (goFmt actual) (goFmt expected) then
    (true, "value contains " ++ goFmt expected)
  else
    (false, "expected value to contain " ++ goFmt expected ++ " but got " ++
      goFmt actual)

/-- `Engine.compareRegex` -/
def compareRegex (lib : RegexLib) (actual expected : GoValue) :
    Bool × String :=
  match lib.matchString (goFmt expected) (goFmt actual) with
  | .error e => (false, "invalid regex pattern: " ++ e)
  | .ok true => (true, "value matches pattern " ++ goFmt expected)
  | .ok false =>
    (false, "expected value to match pattern " ++ goFmt expected ++
      " but got " ++ goFmt actual)

/-- `Engine.compareStartsWith` -/
def compareStartsWith (actual expected : GoValue) : Bool × String :=
  if (goFmt expected).toList.isPrefixOf (goFmt actual).toList then
    (true, "value starts with " ++ goFmt expected)
  else
    (false, "expected value to start with " ++ goFmt expected ++
      " but got " ++ goFmt actual)

/-- `Engine.compareEndsWith` -/
def compareEndsWith (actual expected : GoValue) : Bool × String :=
  if (goFmt expected).toList.reverse.isPrefixOf (goFmt actual).toList.reverse
  then
    (true, "value ends with " ++ goFmt expected)
  else
    (false, "expected value to end with " ++ goFmt expected ++ " but got " ++
      goFmt actual)

/-- `Engine.compareLength`: the expectation must be an `int` or a `float64`
truncated to int. -/
def compareLength (actual expected : GoValue) : Bool × String :=
  let actualLength := getLength actual
  match expected with
  | .vint expectedInt =>
    if actualLength = expectedInt then
      (true, "length equals " ++ toString expectedInt)
    else
      (false, "expected length " ++ toString expectedInt ++ " but got " ++
        toString actualLength)
  | .vfloat q =>
    let expectedInt := GoFloat.trunc q
    if actualLength = expectedInt then
      (true, "length equals " ++ toString expectedInt)
    else
      (false, "expected length " ++ toString expectedInt ++ " but got " ++
        toString actualLength)
  | _ => (false, "expected length must be a number")

/-- `Engine.compareJSONSchema`: marshal both sides to JSON text (the actual
value is used verbatim when it is already a string) and hand them to the
schema library, collecting all violation messages. -/
def compareJSONSchema (lib : SchemaLib) (actual expected : GoValue) :
    Bool × String :=
  let actualStr :=
    match actual with
    | .vstr s => s
    | other => GoMarshal.marshal other
  let schemaStr := GoMarshal.marshal expected
  match lib.validate schemaStr actualStr with
  | .error e => (false, "schema validation error: " ++ e)
  | .ok [] => (true, "JSON response validates against provided schema")
  | .ok msgs =>
    (false, "JSON schema validation failed: " ++ "; ".intercalate msgs)

/-- `Engine.compare`: operator dispatch; an omitted operator defaults to
equality, negated operators reuse the positive comparison and flip the
message polarity. -/
def compare (rlib : RegexLib) (slib : SchemaLib) (actual expected : GoValue)
    (operator : String) : Bool × String :=
  let operator := if operator = "" then "eq" else operator
  match operator with
  | "eq" | "equals" | "==" => compareEqual actual expected
  | "ne" | "not_equals" | "!=" =>
    let (passed, msg) := compareEqual actual expected
    (!passed, replaceFirst msg "equals" "does not equal")
  | "gt" | ">" => compareGreater actual expected
  | "gte" | ">=" => compareGreaterEqual actual expected
  | "lt" | "<" => compareLess actual expected
  | "lte" | "<=" => compareLessEqual actual expected
  | "contains" => compareContains actual expected
  | "not_contains" =>
    let (passed, msg) := compareContains actual expected
    (!passed, replaceFirst msg "contains" "does not contain")
  | "matches" | "regex" => compareRegex rlib actual expected
  | "starts_with" => compareStartsWith actual expected
  | "ends_with" => compareEndsWith actual expected
  | "length" => compareLength actual expected
  | "json_schema" => compareJSONSchema slib actual expected
  | other => (false, "unsupported operator: " ++ other)

/-- `Engine.runAssertion`.  The Go function's `error` result is `nil` on
every return path, so the model returns the `Result` alone.  Step 1
interpolates a string-typed expected value (with the special `json_schema`
whole-variable resolution); step 2 extracts the actual value, where failure
yields a passed result for an optional assertion and a failed result
otherwise; step 3 compares via the operator. -/
def runAssertion (rlib : RegexLib) (slib : SchemaLib) (ctx : VarContext)
    (assertion : Assertion) (response : GoResponse) : Result :=
  let expectedValue : GoValue :=
    match assertion.value with
    | .vstr expectedStr =>
      if assertion.type = "json_schema" ∧ containsSub expectedStr "\x7b\x7b"
      then
        let variableName :=
          String.mk (goTrimSpace (trimChar '}' (trimChar '{' expectedStr)).toList)
        match ctx.Get variableName with
        | some varValue => varValue
        | none => .vstr (ctx.InterpolateString expectedStr).1
      else .vstr (ctx.InterpolateString expectedStr).1
    | other => other
  match extractValue rlib assertion response with
  | .error e =>
    if assertion.optional then
      { passed := true, message := "Optional assertion skipped: " ++ e,
        expected := none, actual := none }
    else
      { passed := false, message := "Failed to extract value: " ++ e,
        expected := none, actual := none }
  | .ok actualValue =>
    let (passed, message) :=
      compare rlib slib actualValue expectedValue assertion.operator
    { passed := passed,
      message :=
        if assertion.description ≠ "" then
          assertion.description ++ ": " ++ message
        else message,
      expected := some expectedValue, actual := some actualValue }

/-- `Engine.RunAssertions`: one result per assertion, in order.  The Go
engine-error return is only non-nil when `runAssertion` errors, which it
never does, so the model returns the result list alone. -/
def RunAssertions (rlib : RegexLib) (slib : SchemaLib) (ctx : VarContext)
    (assertions : List Assertion) (response : GoResponse) : List Result :=
  assertions.map (fun a => runAssertion rlib slib ctx a response)

end Assertions

/-- Association-list update for a Go `map[string]string`. -/
def setKeyStr (m : List (String × String)) (k v : String) :
    List (String × String) :=
  match m with
  | [] => [(k, v)]
  | (k', v') :: rest =>
      if k' = k then (k, v) :: rest else (k', v') :: setKeyStr rest k v

namespace VarContext

open GoValue

/-- `Context.InterpolateMap`: interpolate both keys and values of a
`map[string]string`, building the result by map assignment (Go's iteration
order is unspecified; the model iterates in list order).  The error returns
are dead code because `InterpolateString` never errors. -/
def InterpolateMap (c : VarContext) (input : List (String × String)) :
    List (String × String) :=
  input.foldl
    (fun result p =>
      setKeyStr result (c.InterpolateString p.1).1 (c.InterpolateString p.2).1)
    []

/- `Context.InterpolateInterface`: strings are interpolated, maps are
rebuilt with interpolated keys and recursively interpolated values, slices
recurse elementwise, everything else passes through unchanged.  (The Go
`map[string]string` case cannot fire on a decoded `interface{}` value and
has no `GoValue` counterpart.) -/
mutual

def InterpolateInterface (c : VarContext) : GoValue → GoValue
  | .vstr s => .vstr (c.InterpolateString s).1
  | .vobj m =>
      .vobj ((interpolateObjEntries c m).foldl
        (fun acc p => setKey acc p.1 p.2) [])
  | .varr v => .varr (interpolateArrEntries c v)
  | other => other

def interpolateObjEntries (c : VarContext) :
    List (String × GoValue) → List (String × GoValue)
  | [] => []
  | (k, v) :: rest =>
      ((c.InterpolateString k).1, InterpolateInterface c v) ::
        interpolateObjEntries c rest

def interpolateArrEntries (c : VarContext) : List GoValue → List GoValue
  | [] => []
  | v :: rest => InterpolateInterface c v :: interpolateArrEntries c rest

end

end VarContext

/-! Model of the `scenario` data model (the fields the engine reads) and the
`execution` engine.  Go maps that drive iteration (`Variables`, `Capture`,
`Check`, `Env`, `Tests`) are modelled as association lists; their Go
iteration order is unspecified, the model iterates in list order. -/

/-- `scenario.Capture`: the three addressing modes, mutually exclusive per
capture; an empty string means the mode is unset. -/
structure Capture : Type where
  jsonpath : String
  header : String
  regex : String

/-- The data-driven source reference (`test.DataDriven.Source` /
`test.DataDriven.Variable`, also used at step level).  The struct
declaration itself is not among the provided sources; both fields are
forced by every use site in `execution/engine.go`.  The Go field `Variable`
(the loop-variable name) is spelled `varName` because `variable` is a Lean
keyword. -/
structure DataDriven : Type where
  source : String
  varName : String

/-- `scenario.Request` (the fields the engine and HTTP client consume;
cookies/files/auth are passed through to the transport untouched and are
not modelled). -/
structure Request : Type where
  method : String
  url : String
  headers : List (String × String)
  query : List (String × String)
  body : Option GoValue

/-- `scenario.HTTPStep` (new format). -/
structure HTTPStep : Type where
  url : String
  method : String
  headers : List (String × String)
  query : List (String × String)
  body : Option GoValue
  json : Option GoValue
  check : List (String × GoValue)

/-- `scenario.Step` (the fields `executeStep` reads). -/
structure Step : Type where
  name : String
  type : String
  http : Option HTTPStep
  request : Request
  capture : List (String × Capture)
  check : List (String × GoValue)
  assertions : List Assertion
  -- the Go field `Variables` (`variables` is a Lean keyword)
  vars : List (String × GoValue)
  condition : String
  dataDriven : Option DataDriven

/-- `scenario.TestGroup`. -/
structure TestGroup : Type where
  name : String
  env : List (String × GoValue)
  skip : Bool
  continueOnFail : Bool
  steps : List Step
  dataDriven : Option DataDriven

/-- `reporting.StepResult` (status, error, response, assertion results and
the `GetAll` variable snapshot; timestamps and durations are wall-clock
observations and are not modelled).  `stepName` models the reported
`Step.Name`. -/
structure StepResult : Type where
  stepName : String
  status : String
  error : String
  response : Option GoResponse
  assertions : List Assertions.Result
  -- the Go field `Variables` (`variables` is a Lean keyword)
  vars : List (String × GoValue)

/-- `reporting.ScenarioResult` (the fields group execution touches). -/
structure ScenarioResult : Type where
  status : String
  error : String
  steps : List StepResult

/-- The transport boundary (`protocols.HTTPClient.Execute`), §6 of the
design: it receives the interpolated request and yields a response or an
opaque transport error. -/
structure Transport : Type where
  exec : Request → Except String GoResponse

namespace Execution

open GoValue

/-- `Engine.executeHTTPStep`: interpolate URL, headers, query and body of
the (legacy-format) request through the variable context, then call the
transport.  Every interpolation error branch is dead code because
`InterpolateString` never errors; a transport error is wrapped as
`HTTP request failed: ...`. -/
def executeHTTPStep (tr : Transport) (step : Step) (varContext : VarContext) :
    Except String GoResponse :=
  let url :=
    if step.request.url ≠ "" then (varContext.InterpolateString step.request.url).1
    else step.request.url
  let headers :=
    if step.request.headers ≠ [] then varContext.InterpolateMap step.request.headers
    else step.request.headers
  let query :=
    if step.request.query ≠ [] then varContext.InterpolateMap step.request.query
    else step.request.query
  let body :=
    match step.request.body with
    | some b => some (varContext.InterpolateInterface b)
    | none => none
  let interpolated : Request :=
    { method := step.request.method, url := url,
      headers := headers, query := query, body := body }
  match tr.exec interpolated with
  | .error e => .error ("HTTP request failed: " ++ e)
  | .ok response => .ok response

/-- `Engine.executeHTTPStepNew`: convert the new `http:` step format to the
legacy request shape (a `json:` payload becomes the body plus a
`Content-Type: application/json` header) and delegate. -/
def executeHTTPStepNew (tr : Transport) (step : Step) (h : HTTPStep)
    (varContext : VarContext) : Except String GoResponse :=
  let baseHeaders := h.headers
  let (body, headers) :=
    match h.json with
    | some j =>
      (some j, setKeyStr baseHeaders "Content-Type" "application/json")
    | none => (h.body, baseHeaders)
  let legacyStep : Step :=
    { name := step.name, type := "http", http := none,
      request := { method := h.method, url := h.url, headers := headers,
                   query := h.query, body := body },
      capture := [], check := [], assertions := [], vars := [],
      condition := "", dataDriven := none }
  executeHTTPStep tr legacyStep varContext

/-- `Engine.processCaptures`: for each capture pick the addressing mode
(json-path, header, regex — the regex arm is the source's
`TODO: Implement regex capture` and always errors), extract, and on success
bind the value into step scope; an extraction error is silently dropped. -/
def processCaptures (captures : List (String × Capture))
    (response : GoResponse) (varContext : VarContext) : VarContext :=
  captures.foldl
    (fun ctx p =>
      let (name, capture) := p
      let value : Except String GoValue :=
        if capture.jsonpath ≠ "" then
          Variables.ExtractFromResponse response ("json:" ++ capture.jsonpath)
        else if capture.header ≠ "" then
          Variables.ExtractFromResponse response ("header:" ++ capture.header)
        else if capture.regex ≠ "" then
          -- source: `// TODO: Implement regex capture`
          .error "regex capture not yet implemented"
        else .error "unknown capture type"
      match value with
      | .ok v => ctx.SetStep name v
      | .error _ => ctx)
    varContext

/-- `Engine.processChecks`: convert the shorthand check map into assertions
with operator `eq` (the check type `status` maps to `status_code`) and run
them.  The engine-error branch is dead code (`RunAssertions` never errors in
the model, matching the Go engine). -/
def processChecks (rlib : RegexLib) (slib : SchemaLib)
    (checks : List (String × GoValue)) (response : GoResponse)
    (varContext : VarContext) : List Assertions.Result :=
  let assertionList : List Assertion :=
    checks.map (fun p =>
      { type := if p.1 = "status" then "status_code" else p.1,
        field := "", operator := "eq", value := p.2, description := "",
        optional := false })
  Assertions.RunAssertions rlib slib varContext assertionList response

/-- `Engine.extractVariables`: the body is the source's TODO stub that only
binds `last_status` and `last_response` into step scope. -/
def extractVariables (response : GoResponse) (varContext : VarContext) :
    VarContext :=
  (varContext.SetStep "last_status" (.vint response.statusCode)).SetStep
    "last_response" (.vstr response.bodyText)

/-- Lines 354-360 of `Engine.executeStep`: clear step-specific variables,
then bind the step's declared variables into step scope. -/
def stepPreamble (step : Step) (varContext : VarContext) : VarContext :=
  step.vars.foldl (fun c p => c.SetStep p.1 p.2) varContext.ClearStep

/-- The body of `Engine.executeStep` after the preamble and the data-driven
dispatch (lines 367-455).  The condition block (lines 367-371) is the
source's `// TODO: Implement condition evaluation — for now, assume all
conditions pass` and has no effect, so a step with a condition executes
exactly like one without. -/
def executeStepRest (tr : Transport) (rlib : RegexLib) (slib : SchemaLib)
    (step : Step) (varContext : VarContext) : VarContext × StepResult :=
  match step.http with
  | some h =>
    (match executeHTTPStepNew tr step h varContext with
     | .error e =>
       (varContext,
         { stepName := step.name, status := "failed", error := e,
           response := none, assertions := [], vars := varContext.GetAll })
     | .ok response =>
       let varContext := processCaptures step.capture response varContext
       if !step.check.isEmpty ∨ !h.check.isEmpty then
         let checks :=
           if !h.check.isEmpty then
             h.check.foldl (fun acc p => GoValue.setKey acc p.1 p.2) step.check
           else step.check
         let assertionResults :=
           processChecks rlib slib checks response varContext
         let status :=
           if assertionResults.any (fun r => !r.passed) then "failed"
           else "passed"
         (varContext,
           { stepName := step.name, status := status, error := "",
             response := some response, assertions := assertionResults,
             vars := varContext.GetAll })
       else
         (varContext,
           { stepName := step.name, status := "passed", error := "",
             response := some response, assertions := [],
             vars := varContext.GetAll }))
  | none =>
    match step.type with
    | "http" =>
      (match executeHTTPStep tr step varContext with
       | .error e =>
         (varContext,
           { stepName := step.name, status := "failed", error := e,
             response := none, assertions := [], vars := varContext.GetAll })
       | .ok response =>
         let (status, assertionResults) :=
           if !step.assertions.isEmpty then
             let results :=
               Assertions.RunAssertions rlib slib varContext step.assertions
                 response
             -- the engine-error branch is dead: `RunAssertions` never errors
             (if results.any (fun r => !r.passed) then "failed" else "passed",
               results)
           else ("passed", [])
         let varContext := extractVariables response varContext
         (varContext,
           { stepName := step.name, status := status, error := "",
             response := some response, assertions := assertionResults,
             vars := varContext.GetAll }))
    | other =>
      (varContext,
        { stepName := step.name, status := "failed",
          error := "Unsupported step type: " ++ other, response := none,
          assertions := [], vars := varContext.GetAll })

/-- `Engine.executeStep` for a step whose `DataDriven` field is nil — the
shape of the recursive call in `executeDataDrivenStep`, which nils the field
precisely so that this path is taken. -/
def executeStepNoDD (tr : Transport) (rlib : RegexLib) (slib : SchemaLib)
    (step : Step) (varContext : VarContext) : VarContext × StepResult :=
  executeStepRest tr rlib slib step (stepPreamble step varContext)

/-- Models the Go type assertion `dataSource.([]map[string]interface{})`:
the only values the engine stores under a data-source name are the data
loader's record slices, whose elements are string-keyed maps. -/
def asRecords : GoValue → Option (List (List (String × GoValue)))
  | .varr xs => go xs
  | _ => none
where
  go : List GoValue → Option (List (List (String × GoValue)))
    | [] => some []
    | .vobj m :: rest => (go rest).map (fun l => m :: l)
    | _ => none

/-- The iteration loop of `Engine.executeDataDrivenStep`: clone the context,
bind the data item into step scope, run the step (renamed with the 1-based
index, `DataDriven` nilled) and keep the last result, stopping at the first
failure. -/
def ddStepLoop (tr : Transport) (rlib : RegexLib) (slib : SchemaLib)
    (step : Step) (dd : DataDriven) (varContext : VarContext) :
    List (List (String × GoValue)) → Nat → StepResult → StepResult
  | [], _, lastResult => lastResult
  | item :: rest, i, _ =>
    let iterationContext := (varContext.Clone).SetStep dd.varName (.vobj item)
    let modifiedStep :=
      { step with dataDriven := none,
                  name := step.name ++ " (data " ++ toString (i + 1) ++ ")" }
    let lastResult :=
      (executeStepNoDD tr rlib slib modifiedStep iterationContext).2
    if lastResult.status = "failed" then lastResult
    else ddStepLoop tr rlib slib step dd varContext rest (i + 1) lastResult

/-- `Engine.executeDataDrivenStep`.  The zero-value `StepResult` is returned
when the record list is empty (`var lastResult` unassigned). -/
def executeDataDrivenStep (tr : Transport) (rlib : RegexLib)
    (slib : SchemaLib) (step : Step) (dd : DataDriven)
    (varContext : VarContext) : StepResult :=
  match varContext.Get dd.source with
  | none =>
    { stepName := step.name, status := "failed",
      error := "Data source '" ++ dd.source ++ "' not found for step '" ++
        step.name ++ "'",
      response := none, assertions := [], vars := [] }
  | some dataSource =>
    match asRecords dataSource with
    | none =>
      { stepName := step.name, status := "failed",
        error := "Data source '" ++ dd.source ++
          "' is not a valid data array",
        response := none, assertions := [], vars := [] }
    | some items =>
      ddStepLoop tr rlib slib step dd varContext items 0
        { stepName := "", status := "", error := "", response := none,
          assertions := [], vars := [] }

/-- `Engine.executeStep` (lines 347-456): preamble, then the data-driven
dispatch, then the main body. -/
def executeStep (tr : Transport) (rlib : RegexLib) (slib : SchemaLib)
    (step : Step) (varContext : VarContext) : VarContext × StepResult :=
  let varContext := stepPreamble step varContext
  match step.dataDriven with
  | some dd =>
    (varContext, executeDataDrivenStep tr rlib slib step dd varContext)
  | none => executeStepRest tr rlib slib step varContext

/-- The step loop of `Engine.executeTestGroup` (lines 246-255): execute each
step, append its result, and on a failure with `ContinueOnFail` unset mark
the scenario result failed and stop. -/
def runGroupSteps (tr : Transport) (rlib : RegexLib) (slib : SchemaLib)
    (test : TestGroup) (testName : String) :
    List Step → VarContext → ScenarioResult → VarContext × ScenarioResult
  | [], varContext, result => (varContext, result)
  | s :: rest, varContext, result =>
    let (varContext', stepResult) := executeStep tr rlib slib s varContext
    let result' := { result with steps := result.steps ++ [stepResult] }
    if stepResult.status = "failed" ∧ test.continueOnFail = false then
      (varContext',
        { result' with status := "failed",
                       error := "Test '" ++ testName ++ "' step '" ++
                         s.name ++ "' failed" })
    else runGroupSteps tr rlib slib test testName rest varContext' result'

/-- The inner step loop of `Engine.executeDataDrivenTestGroup` (lines
283-293): the reported step name is suffixed with the 1-based iteration
index; a failure with `ContinueOnFail` unset marks the result failed and
returns from the whole group (the `Bool` signals that abort). -/
def ddGroupStepsLoop (tr : Transport) (rlib : RegexLib) (slib : SchemaLib)
    (test : TestGroup) (testName : String) (i : Nat) :
    List Step → VarContext → ScenarioResult → ScenarioResult × Bool
  | [], _, result => (result, false)
  | s :: rest, iterationContext, result =>
    let (iterationContext', stepResult0) :=
      executeStep tr rlib slib s iterationContext
    let stepResult :=
      { stepResult0 with
          stepName := s.name ++ " (data " ++ toString (i + 1) ++ ")" }
    let result' := { result with steps := result.steps ++ [stepResult] }
    if stepResult.status = "failed" ∧ test.continueOnFail = false then
      ({ result' with
           status := "failed",
           error := "Test '" ++ testName ++ "' step '" ++ s.name ++
             "' failed on data item " ++ toString (i + 1) }, true)
    else ddGroupStepsLoop tr rlib slib test testName i rest iterationContext'
      result'

/-- The outer record loop of `Engine.executeDataDrivenTestGroup` (lines
275-294): per record, clone the group's context and bind the loop variable
into step scope of the clone, then run the group's steps against it. -/
def ddGroupItemsLoop (tr : Transport) (rlib : RegexLib) (slib : SchemaLib)
    (test : TestGroup) (dd : DataDriven) (testName : String)
    (varContext : VarContext) :
    List (List (String × GoValue)) → Nat → ScenarioResult → ScenarioResult
  | [], _, result => result
  | item :: rest, i, result =>
    let iterationContext := (varContext.Clone).SetStep dd.varName (.vobj item)
    let (result', aborted) :=
      ddGroupStepsLoop tr rlib slib test testName i test.steps
        iterationContext result
    if aborted then result'
    else ddGroupItemsLoop tr rlib slib test dd testName varContext rest
      (i + 1) result'

/-- `Engine.executeDataDrivenTestGroup` (lines 258-295). -/
def executeDataDrivenTestGroup (tr : Transport) (rlib : RegexLib)
    (slib : SchemaLib) (test : TestGroup) (dd : DataDriven)
    (testName : String) (varContext : VarContext) (result : ScenarioResult) :
    ScenarioResult :=
  match varContext.Get dd.source with
  | none =>
    { result with
        status := "failed",
        error := "Data source '" ++ dd.source ++
          "' not found for test group '" ++ testName ++ "'" }
  | some dataSource =>
    match asRecords dataSource with
    | none =>
      { result with
          status := "failed",
          error := "Data source '" ++ dd.source ++
            "' is not a valid data array" }
    | some items =>
      ddGroupItemsLoop tr rlib slib test dd testName varContext items 0 result

/-- `Engine.executeTestGroup` (lines 229-256): return immediately when the
skip flag is set; otherwise bind the group's env into local scope, then
either iterate the data source or run the step loop. -/
def executeTestGroup (tr : Transport) (rlib : RegexLib) (slib : SchemaLib)
    (test : TestGroup) (testName : String) (varContext : VarContext)
    (result : ScenarioResult) : VarContext × ScenarioResult :=
  if test.skip then (varContext, result)
  else
    let varContext := test.env.foldl (fun c p => c.SetLocal p.1 p.2) varContext
    match test.dataDriven with
    | some dd =>
      (varContext,
        executeDataDrivenTestGroup tr rlib slib test dd testName varContext
          result)
    | none => runGroupSteps tr rlib slib test testName test.steps varContext
        result

/-- Externally observable actions of one goroutine spawned by
`Engine.executeTestsConcurrently`, used to show where the mutex is held:
acquiring/releasing the shared `mu`, a transport call, the evaluation of a
step's checks, and the append of a step result to the shared
`result.Steps`. -/
inductive EngAction : Type
  | lockAcquire : EngAction
  | lockRelease : EngAction
  | httpRequest : String → EngAction
  | checkEvaluation : EngAction
  | appendStepResult : String → EngAction
  deriving Repr, DecidableEq

/-- The transport-call / check-evaluation actions performed by the
post-preamble body of `executeStep` (`executeStepRest`): the HTTP request is
issued with the interpolated URL; checks (or legacy assertions) are
evaluated only when the transport succeeded and some are declared. -/
def stepRestActions (tr : Transport) (step : Step) (varContext : VarContext) :
    List EngAction :=
  match step.http with
  | some h =>
    let url :=
      if h.url ≠ "" then (varContext.InterpolateString h.url).1 else h.url
    .httpRequest url ::
      (match executeHTTPStepNew tr step h varContext with
       | .error _ => []
       | .ok _ =>
         if !step.check.isEmpty ∨ !h.check.isEmpty then [.checkEvaluation]
         else [])
  | none =>
    match step.type with
    | "http" =>
      let url :=
        if step.request.url ≠ "" then
          (varContext.InterpolateString step.request.url).1
        else step.request.url
      .httpRequest url ::
        (match executeHTTPStep tr step varContext with
         | .error _ => []
         | .ok _ =>
           if !step.assertions.isEmpty then [.checkEvaluation] else [])
    | _ => []

/-- Actions of `executeStep` including the data-driven iteration. -/
def stepActions (tr : Transport) (rlib : RegexLib) (slib : SchemaLib)
    (step : Step) (varContext : VarContext) : List EngAction :=
  let varContext := stepPreamble step varContext
  match step.dataDriven with
  | some dd =>
    (match varContext.Get dd.source with
     | none => []
     | some dataSource =>
       match asRecords dataSource with
       | none => []
       | some items => ddStepActionsLoop tr rlib slib step dd varContext
           items 0)
  | none => stepRestActions tr step varContext
where
  ddStepActionsLoop (tr : Transport) (rlib : RegexLib) (slib : SchemaLib)
      (step : Step) (dd : DataDriven) (varContext : VarContext) :
      List (List (String × GoValue)) → Nat → List EngAction
    | [], _ => []
    | item :: rest, i =>
      let iterationContext :=
        (varContext.Clone).SetStep dd.varName (.vobj item)
      let modifiedStep :=
        { step with dataDriven := none,
                    name := step.name ++ " (data " ++ toString (i + 1) ++ ")" }
      let iterCtx' := stepPreamble modifiedStep iterationContext
      let acts := stepRestActions tr modifiedStep iterCtx'
      let lastResult :=
        (executeStepNoDD tr rlib slib modifiedStep iterationContext).2
      if lastResult.status = "failed" then acts
      else acts ++ ddStepActionsLoop tr rlib slib step dd varContext rest
        (i + 1)

/-- Actions of the step loop of `executeTestGroup`: each step's actions are
followed by the append of its result to the shared collection. -/
def groupStepsActions (tr : Transport) (rlib : RegexLib) (slib : SchemaLib)
    (test : TestGroup) : List Step → VarContext → List EngAction
  | [], _ => []
  | s :: rest, varContext =>
    let (varContext', stepResult) := executeStep tr rlib slib s varContext
    stepActions tr rlib slib s varContext ++
      [.appendStepResult stepResult.stepName] ++
      (if stepResult.status = "failed" ∧ test.continueOnFail = false then []
       else groupStepsActions tr rlib slib test rest varContext')

/-- Actions of `executeTestGroup` (the data-driven path appends one result
per step per record). -/
def groupActions (tr : Transport) (rlib : RegexLib) (slib : SchemaLib)
    (test : TestGroup) (varContext : VarContext) : List EngAction :=
  if test.skip then []
  else
    let varContext := test.env.foldl (fun c p => c.SetLocal p.1 p.2) varContext
    match test.dataDriven with
    | some dd =>
      (match varContext.Get dd.source with
       | none => []
       | some dataSource =>
         match asRecords dataSource with
         | none => []
         | some items => ddGroupActionsLoop tr rlib slib test varContext dd
             items 0)
    | none => groupStepsActions tr rlib slib test test.steps varContext
where
  ddGroupActionsItems (tr : Transport) (rlib : RegexLib) (slib : SchemaLib)
      (test : TestGroup) (i : Nat) :
      List Step → VarContext → List EngAction × Bool
    | [], _ => ([], false)
    | s :: rest, iterationContext =>
      let (iterationContext', stepResult0) :=
        executeStep tr rlib slib s iterationContext
      let acts := stepActions tr rlib slib s iterationContext ++
        [.appendStepResult (s.name ++ " (data " ++ toString (i + 1) ++ ")")]
      if stepResult0.status = "failed" ∧ test.continueOnFail = false then
        (acts, true)
      else
        let (acts', aborted) :=
          ddGroupActionsItems tr rlib slib test i rest iterationContext'
        (acts ++ acts', aborted)
  ddGroupActionsLoop (tr : Transport) (rlib : RegexLib) (slib : SchemaLib)
      (test : TestGroup) (varContext : VarContext) (dd : DataDriven) :
      List (List (String × GoValue)) → Nat → List EngAction
    | [], _ => []
    | item :: rest, i =>
      let iterationContext :=
        (varContext.Clone).SetStep dd.varName (.vobj item)
      let (acts, aborted) :=
        ddGroupActionsItems tr rlib slib test i test.steps iterationContext
      if aborted then acts
      else acts ++ ddGroupActionsLoop tr rlib slib test varContext dd rest
        (i + 1)

/-- One goroutine of `Engine.executeTestsConcurrently` (lines 216-223):
clone the scenario context, then `mu.Lock()`, execute the whole test group,
and `mu.Unlock()` — the mutex is held for the entire group execution, not
just for the appends to `result.Steps`. -/
def goroutineActions (tr : Transport) (rlib : RegexLib) (slib : SchemaLib)
    (test : TestGroup) (varContext : VarContext) : List EngAction :=
  let testVarContext := varContext.Clone
  [.lockAcquire] ++ groupActions tr rlib slib test testVarContext ++
    [.lockRelease]

/-! Concrete fixtures for the claim theorems.  The mock responses mirror the
repository's own test server (`setupTestServer` in the engine tests): a
`/json` endpoint returning `{"user": {"id": 123, "name": "fuego"},
"status": "ok"}` and a `/text` endpoint returning a session-id sentence.
No path exercised by a concrete theorem consults the regex or schema
library, so any instance works; the ones below answer with an error /
an empty violation list. -/

def stubRegexLib : RegexLib :=
  ⟨fun _ _ => .error "pattern not consulted", fun _ _ => .ok false⟩

def stubSchemaLib : SchemaLib := ⟨fun _ _ => .ok []⟩

/-- The `/json` mock response. -/
def userResponse : GoResponse :=
  { statusCode := 200, headers := [("X-Test-Header", ["fuego-test"])],
    bodyText :=
      "\x7b\"user\": \x7b\"id\": 123, \"name\": \"fuego\"\x7d, \"status\": \"ok\"\x7d",
    durationNs := 5000000, size := 54 }

/-- The `/text` mock response. -/
def textResponse : GoResponse :=
  { statusCode := 200, headers := [],
    bodyText := "Hello, Fuego! Your session ID is sess-abc-123.",
    durationNs := 3000000, size := 46 }

/-- A transport that always answers with `userResponse`. -/
def fixedTransport : Transport := ⟨fun _ => .ok userResponse⟩

/-- A transport that echoes the (already interpolated) request URL into the
response body, making the URL the engine actually sent observable. -/
def echoTransport : Transport :=
  ⟨fun req => .ok { statusCode := 200, headers := [], bodyText := req.url,
                    durationNs := 0, size := 0 }⟩

/-- A new-format HTTP step with the given name, URL, captures, shorthand
checks and condition, and no other configuration. -/
def mkHTTPStep (name url : String) (cap : List (String × Capture))
    (check : List (String × GoValue)) (cond : String) : Step :=
  { name := name, type := "",
    http := some { url := url, method := "GET", headers := [], query := [],
                   body := none, json := none, check := [] },
    request := { method := "", url := "", headers := [], query := [],
                 body := none },
    capture := cap, check := check, assertions := [], vars := [],
    condition := cond, dataDriven := none }

/-- The empty variable context. -/
def emptyCtx : VarContext := { global := [], locals := [], step := [] }

/-- A fresh scenario result. -/
def emptyScenarioResult : ScenarioResult := { status := "", error := "", steps := [] }

/-- Step with a condition naming a variable that resolves to boolean false,
plus a capture and a shorthand check, as in the repository's own
`TestConditionEvaluation`. -/
def conditionStep : Step :=
  mkHTTPStep "conditional" "/json"
    [("uid", { jsonpath := "user.id", header := "", regex := "" })]
    [("status", .vint 200)] "\x7b\x7bshould_run\x7d\x7d"

/-- Context in which `should_run` is boolean false (bound in local scope so
that `ClearStep` cannot remove it). -/
def conditionCtx : VarContext :=
  { global := [], locals := [("should_run", .vbool false)], step := [] }

/-- C1: the claim says a step whose condition resolves to a falsy value is
reported `skipped` with no request, captures or checks.  In the code the
condition block is an unimplemented TODO: with `should_run = false` the
condition interpolates to the falsy `"false"`, yet the step executes —
its status is `passed`, its capture is bound, and its check produced a
result. -/
theorem executeStep_ignores_falsy_condition :
    (conditionCtx.InterpolateString "\x7b\x7bshould_run\x7d\x7d").1 =
      "false" ∧
    (Execution.executeStep fixedTransport stubRegexLib stubSchemaLib
      conditionStep conditionCtx).2.status = "passed" ∧
    (Execution.executeStep fixedTransport stubRegexLib stubSchemaLib
      conditionStep conditionCtx).1.Get "uid" = some (.vfloat 123) ∧
    (Execution.executeStep fixedTransport stubRegexLib stubSchemaLib
      conditionStep conditionCtx).2.assertions.length = 1 :=
  ⟨rfl, rfl, rfl, rfl⟩

/-- Step capturing `uid` from `user.id` of the `/json` body. -/
def captureStep : Step :=
  mkHTTPStep "get user" "/json"
    [("uid", { jsonpath := "user.id", header := "", regex := "" })] [] ""

/-- Follow-up step whose URL names the capture. -/
def placeholderStep : Step :=
  mkHTTPStep "use uid" "/u/\x7b\x7buid\x7d\x7d" [] [] ""

/-- The context as left by executing `captureStep` (the capture is in step
scope). -/
def ctxAfterCapture : VarContext :=
  (Execution.executeStep fixedTransport stubRegexLib stubSchemaLib
    captureStep emptyCtx).1

/-- C2: the claim says a value captured by step N is still resolvable
during step N+1.  In the code captures go into step scope and
`executeStep` clears step scope first: the capture is resolvable when step
N ends, is gone right after step N+1's preamble, and step N+1's request is
sent with the placeholder verbatim (the echo transport exposes the URL the
engine sent). -/
theorem capture_cleared_before_next_step :
    ctxAfterCapture.Get "uid" = some (.vfloat 123) ∧
    (Execution.stepPreamble placeholderStep ctxAfterCapture).Get "uid" =
      none ∧
    (Execution.executeStep echoTransport stubRegexLib stubSchemaLib
        placeholderStep ctxAfterCapture).2.response =
      some { statusCode := 200, headers := [],
             bodyText := "/u/\x7b\x7buid\x7d\x7d", durationNs := 0,
             size := 0 } :=
  ⟨rfl, rfl, rfl⟩

/-- A one-step group with a shorthand status check, as launched by the
parallel fan-out. -/
def parallelGroup : TestGroup :=
  { name := "g1", env := [], skip := false, continueOnFail := false,
    steps := [mkHTTPStep "s1" "/json" [] [("status", .vint 200)] ""],
    dataDriven := none }

/-- C3: the claim says the mutex protecting the shared result collection is
held only for the append itself, never across a group's HTTP call or check
evaluation.  In the code each goroutine wraps the whole
`executeTestGroup` call in `mu.Lock()`/`mu.Unlock()`: the observable trace
places the HTTP request and the check evaluation strictly inside the
critical section, so concurrent groups are serialized. -/
theorem parallel_groups_serialized_by_mutex :
    Execution.goroutineActions fixedTransport stubRegexLib stubSchemaLib
        parallelGroup emptyCtx =
      [.lockAcquire, .httpRequest "/json", .checkEvaluation,
       .appendStepResult "s1", .lockRelease] :=
  rfl

/-- Step addressing the data-driven loop variable `item` in its URL. -/
def fetchStep : Step := mkHTTPStep "fetch" "/u/\x7b\x7bitem.x\x7d\x7d" [] [] ""

/-- Data-driven group over the source variable `ds` with loop variable
`item`. -/
def dataDrivenGroup : TestGroup :=
  { name := "users", env := [], skip := false, continueOnFail := false,
    steps := [fetchStep],
    dataDriven := some { source := "ds", varName := "item" } }

/-- Context whose local scope binds `ds` to one record `{x: 1}` (the shape
the data loader stores). -/
def dataDrivenCtx : VarContext :=
  { global := [], locals := [("ds", .varr [.vobj [("x", .vint 1)]])],
    step := [] }

/-- C4: the claim says the orchestrator binds the loop variable to each
record so the group's steps can resolve it (and suffixes step names with a
1-based index).  In the code the record is bound into step scope of the
iteration clone and `executeStep` clears step scope first: the reported
name does get the `(data 1)` suffix, but the step's request goes out with
`item.x` unresolved (the echo transport exposes the URL). -/
theorem data_driven_binding_cleared_at_step_start :
    ((Execution.executeTestGroup echoTransport stubRegexLib stubSchemaLib
        dataDrivenGroup "users" dataDrivenCtx emptyScenarioResult).2.steps.map
      (fun r => (r.stepName, r.status))) = [("fetch (data 1)", "passed")] ∧
    ((Execution.executeTestGroup echoTransport stubRegexLib stubSchemaLib
        dataDrivenGroup "users" dataDrivenCtx emptyScenarioResult).2.steps.map
      (fun r => r.response)) =
      [some { statusCode := 200, headers := [],
              bodyText := "/u/\x7b\x7bitem.x\x7d\x7d", durationNs := 0,
              size := 0 }] :=
  ⟨rfl, rfl⟩

/-- A transport that always answers with `textResponse`. -/
def textTransport : Transport := ⟨fun _ => .ok textResponse⟩

/-- Step with a regex capture over the `/text` body, as in the repository's
own `TestRegexCapture`. -/
def regexCaptureStep : Step :=
  mkHTTPStep "get text" "/text"
    [("session_id", { jsonpath := "", header := "",
                      regex := "sess-([a-z0-9-]+)" })] [] ""

/-- C5: the claim says a regex capture binds the first match (group list or
whole match) and that an invalid pattern is an extraction error.  In the
code the regex arm of `processCaptures` is an unimplemented TODO that
errors unconditionally and the error is silently dropped: the context is
left completely unchanged (no regex engine is even consulted), the step
still passes, and no binding appears. -/
theorem regex_capture_unimplemented_drops_binding :
    Execution.processCaptures
        [("session_id", { jsonpath := "", header := "",
                          regex := "sess-([a-z0-9-]+)" })]
        textResponse emptyCtx = emptyCtx ∧
    (Execution.executeStep textTransport stubRegexLib stubSchemaLib
      regexCaptureStep emptyCtx).1.Get "session_id" = none ∧
    (Execution.executeStep textTransport stubRegexLib stubSchemaLib
      regexCaptureStep emptyCtx).2.status = "passed" :=
  ⟨rfl, rfl, rfl⟩

/-- C10: for every test group whose skip flag is set, `executeTestGroup`
returns immediately: the variable context and the scenario result (steps,
status and error fields) are returned exactly as they were. -/
theorem skipped_group_leaves_result_unchanged :
    ∀ (tr : Transport) (rlib : RegexLib) (slib : SchemaLib)
      (test : TestGroup) (testName : String) (varContext : VarContext)
      (result : ScenarioResult),
      test.skip = true →
      Execution.executeTestGroup tr rlib slib test testName varContext
        result = (varContext, result) := by
  intro tr rlib slib test testName varContext result h
  unfold Execution.executeTestGroup
  rw [h]
  simp

/-- A skipped group that would otherwise mutate the context and append a
step result. -/
def skippedGroup : TestGroup :=
  { name := "g", env := [("k", .vint 1)], skip := true,
    continueOnFail := false, steps := [mkHTTPStep "s" "/json" [] [] ""],
    dataDriven := none }

/-- A pre-existing scenario result with nonempty status and error. -/
def priorResult : ScenarioResult :=
  { status := "passed", error := "prior", steps := [] }

/-- C10 witness: the theorem applied to a concrete skipped group and a
concrete pre-existing result. -/
theorem skipped_group_witness :
    skippedGroup.skip = true ∧
    Execution.executeTestGroup fixedTransport stubRegexLib stubSchemaLib
      skippedGroup "g" emptyCtx priorResult = (emptyCtx, priorResult) :=
  ⟨rfl, skipped_group_leaves_result_unchanged fixedTransport stubRegexLib
    stubSchemaLib skippedGroup "g" emptyCtx priorResult rfl⟩

/-- C7: for every assertion whose actual-value extraction fails, the result
is passed (with an explanatory message) when the assertion is optional and
failed otherwise; and every assertion in a list produces exactly one
result. -/
theorem assertion_extraction_failure_policy :
    (∀ (rlib : RegexLib) (slib : SchemaLib) (c : VarContext) (a : Assertion)
        (resp : GoResponse) (e : String),
      Assertions.extractValue rlib a resp = .error e →
      (Assertions.runAssertion rlib slib c a resp).passed = a.optional ∧
      (Assertions.runAssertion rlib slib c a resp).message =
        (if a.optional then "Optional assertion skipped: " ++ e
         else "Failed to extract value: " ++ e)) ∧
    (∀ (rlib : RegexLib) (slib : SchemaLib) (c : VarContext)
        (l : List Assertion) (resp : GoResponse),
      (Assertions.RunAssertions rlib slib c l resp).length = l.length) := by
  constructor
  · intro rlib slib c a resp e h
    unfold Assertions.runAssertion
    rw [h]
    by_cases hopt : a.optional <;> simp [hopt]
  · intro rlib slib c l resp
    unfold Assertions.RunAssertions
    simp

/-- An optional assertion whose target header is absent from the
response. -/
def missingHeaderOptional : Assertion :=
  { type := "header", field := "X-Missing", operator := "",
    value := .vstr "x", description := "", optional := true }

/-- The same assertion with the optional flag unset. -/
def missingHeaderRequired : Assertion :=
  { type := "header", field := "X-Missing", operator := "",
    value := .vstr "x", description := "", optional := false }

/-- C7 witness: concrete extraction failure — the optional variant passes,
the required variant fails, and a two-assertion list yields two results. -/
theorem assertion_extraction_failure_witness :
    Assertions.extractValue stubRegexLib missingHeaderOptional userResponse =
      .error "header X-Missing not found" ∧
    (Assertions.runAssertion stubRegexLib stubSchemaLib emptyCtx
      missingHeaderOptional userResponse).passed = true ∧
    (Assertions.runAssertion stubRegexLib stubSchemaLib emptyCtx
      missingHeaderRequired userResponse).passed = false ∧
    (Assertions.RunAssertions stubRegexLib stubSchemaLib emptyCtx
      [missingHeaderOptional, missingHeaderRequired] userResponse).length =
      2 := by
  refine ⟨rfl, ?_, ?_, ?_⟩
  · exact (assertion_extraction_failure_policy.1 stubRegexLib stubSchemaLib
      emptyCtx missingHeaderOptional userResponse
      "header X-Missing not found" rfl).1
  · exact (assertion_extraction_failure_policy.1 stubRegexLib stubSchemaLib
      emptyCtx missingHeaderRequired userResponse
      "header X-Missing not found" rfl).1
  · exact assertion_extraction_failure_policy.2 stubRegexLib stubSchemaLib
      emptyCtx [missingHeaderOptional, missingHeaderRequired] userResponse

/-- C8: the equality operator passes exactly when the values are deeply
equal, or both numeric and equal as floating-point values, or their `%v`
string renderings coincide; in particular `200 == 200.0` and
`"200" == 200` pass. -/
theorem equality_operator_coercion_semantics :
    (∀ a e : GoValue,
      (Assertions.compareEqual a e).1 = true ↔
        (GoValue.deepEqual a e = true ∨
          (Assertions.isNumeric a = true ∧ Assertions.isNumeric e = true ∧
            GoFloat.eqb (Assertions.toFloat64 a) (Assertions.toFloat64 e) =
              true) ∨
          GoValue.goFmt a = GoValue.goFmt e)) ∧
    (Assertions.compareEqual (.vint 200) (.vfloat 200)).1 = true ∧
    (Assertions.compareEqual (.vstr "200") (.vint 200)).1 = true := by
  refine ⟨?_, rfl, rfl⟩
  intro a e
  unfold Assertions.compareEqual
  split_ifs with h1 h2 h3 <;> simp_all

/-- C9: step scope wins over local and global, local wins over global, and
after `ClearStep` a key resolves to whatever local or global provides (or
not-found). -/
theorem scope_precedence_and_clearstep :
    ∀ (c : VarContext) (k : String),
      (∀ v, GoValue.lookupKey c.step k = some v → c.Get k = some v) ∧
      (GoValue.lookupKey c.step k = none →
        ∀ v, GoValue.lookupKey c.locals k = some v → c.Get k = some v) ∧
      (GoValue.lookupKey c.step k = none →
        GoValue.lookupKey c.locals k = none →
        c.Get k = GoValue.lookupKey c.global k) ∧
      (c.ClearStep.Get k =
        match GoValue.lookupKey c.locals k with
        | some v => some v
        | none => GoValue.lookupKey c.global k) := by
  intro c k
  refine ⟨?_, ?_, ?_, ?_⟩
  · intro v h
    unfold VarContext.Get
    rw [h]
  · intro h v h2
    unfold VarContext.Get
    rw [h, h2]
  · intro h h2
    unfold VarContext.Get
    rw [h, h2]
  · unfold VarContext.ClearStep VarContext.Get
    simp [GoValue.lookupKey]

/-- A context binding the same key in all three scopes. -/
def layeredCtx : VarContext :=
  { global := [("k", .vstr "g")], locals := [("k", .vstr "l")],
    step := [("k", .vstr "s")] }

/-- A context binding the key only in global scope. -/
def globalOnlyCtx : VarContext :=
  { global := [("k", .vstr "g")], locals := [], step := [] }

/-- C9 witness: with `k` bound in all three scopes, step wins; after
`ClearStep`, local wins; with only a global binding, `ClearStep` resolves
to global. -/
theorem scope_precedence_witness :
    layeredCtx.Get "k" = some (.vstr "s") ∧
    layeredCtx.ClearStep.Get "k" = some (.vstr "l") ∧
    globalOnlyCtx.ClearStep.Get "k" = some (.vstr "g") := by
  refine ⟨?_, ?_, ?_⟩
  · exact (scope_precedence_and_clearstep layeredCtx "k").1 (.vstr "s") rfl
  · exact (scope_precedence_and_clearstep layeredCtx "k").2.2.2
  · exact (scope_precedence_and_clearstep globalOnlyCtx "k").2.2.2

/-- Helper: `dropWhile` never lengthens a list. -/
theorem dropWhile_length_le {α : Type} (p : α → Bool) (l : List α) :
    (l.dropWhile p).length ≤ l.length := by
  induction l with
  | nil => simp [List.dropWhile]
  | cons x xs ih =>
    by_cases h : p x
    · simp [List.dropWhile, h]
      omega
    · simp [List.dropWhile, h]

/-- Helper: `takeWhile (· ≠ '}')` over `name ++ '}' :: xs` yields exactly
`name` when `name` is brace-free. -/
theorem takeWhile_stops_at_brace (name xs : List Char) (h : '}' ∉ name) :
    (name ++ '}' :: xs).takeWhile (fun x => x ≠ '}') = name := by
  induction name with
  | nil => simp [List.takeWhile]
  | cons c cs ih =>
    have hc : c ≠ '}' := by
      intro hc
      exact h (hc ▸ List.mem_cons_self c cs)
    have hcs : '}' ∉ cs := fun hm => h (List.mem_cons_of_mem c hm)
    have ih' := ih hcs
    simp [List.takeWhile_cons, hc] at ih' ⊢
    exact ih'

/-- Helper: `dropWhile (· ≠ '}')` over `name ++ '}' :: xs` yields
`'}' :: xs` when `name` is brace-free. -/
theorem dropWhile_stops_at_brace (name xs : List Char) (h : '}' ∉ name) :
    (name ++ '}' :: xs).dropWhile (fun x => x ≠ '}') = '}' :: xs := by
  induction name with
  | nil => simp [List.dropWhile]
  | cons c cs ih =>
    have hc : c ≠ '}' := by
      intro hc
      exact h (hc ▸ List.mem_cons_self c cs)
    have hcs : '}' ∉ cs := fun hm => h (List.mem_cons_of_mem c hm)
    have ih' := ih hcs
    simp [List.dropWhile_cons, hc] at ih' ⊢
    exact ih'

/-- Helper: length bound for the tail the interpolation scan jumps to after
a placeholder match. -/
theorem drop_dropWhile_drop_len (p : Char → Bool) (cs : List Char)
    (k m : Nat) : (((cs.drop k).dropWhile p).drop m).length ≤ cs.length := by
  have h1 := dropWhile_length_le p (cs.drop k)
  have h2 := List.length_drop k cs
  have h3 := List.length_drop m ((cs.drop k).dropWhile p)
  omega

/-- Helper: the interpolation scan does not depend on the fuel bound, as
long as the fuel exceeds the input length (each step consumes at least one
character). -/
theorem interp_fuel_congr (c : VarContext) :
    ∀ (n f g : Nat) (s : List Char), s.length ≤ n → s.length < f →
      s.length < g →
      VarContext.interpolateChars c f s = VarContext.interpolateChars c g s := by
  intro n
  induction n with
  | zero =>
    intro f g s hs hf hg
    have hnil : s = [] := List.length_eq_zero.mp (Nat.le_zero.mp hs)
    subst hnil
    obtain ⟨f', rfl⟩ : ∃ f'', f = f'' + 1 := ⟨f - 1, by omega⟩
    obtain ⟨g', rfl⟩ : ∃ g'', g = g'' + 1 := ⟨g - 1, by omega⟩
    rfl
  | succ n ih =>
    intro f g s hs hf hg
    obtain ⟨f', rfl⟩ : ∃ f'', f = f'' + 1 := ⟨f - 1, by omega⟩
    obtain ⟨g', rfl⟩ : ∃ g'', g = g'' + 1 := ⟨g - 1, by omega⟩
    cases s with
    | nil => rfl
    | cons ch cs =>
      have hcs : cs.length ≤ n := by
        simp only [List.length_cons] at hs
        omega
      have hcsf : cs.length < f' := by
        simp only [List.length_cons] at hf
        omega
      have hcsg : cs.length < g' := by
        simp only [List.length_cons] at hg
        omega
      simp only [VarContext.interpolateChars]
      split_ifs with h1 h2 h3 h4
      · congr 1
        refine ih f' g' _ ?_ ?_ ?_
        · exact le_trans (drop_dropWhile_drop_len _ cs 2 2) hcs
        · exact lt_of_le_of_lt (drop_dropWhile_drop_len _ cs 2 2) hcsf
        · exact lt_of_le_of_lt (drop_dropWhile_drop_len _ cs 2 2) hcsg
      · congr 1
        exact ih f' g' cs hcs hcsf hcsg
      · congr 1
        refine ih f' g' _ ?_ ?_ ?_
        · exact le_trans (drop_dropWhile_drop_len _ cs 1 2) hcs
        · exact lt_of_le_of_lt (drop_dropWhile_drop_len _ cs 1 2) hcsf
        · exact lt_of_le_of_lt (drop_dropWhile_drop_len _ cs 1 2) hcsg
      · congr 1
        exact ih f' g' cs hcs hcsf hcsg
      · congr 1
        exact ih f' g' cs hcs hcsf hcsg

/-- Helper: stepping lemma for a `{{name}}` placeholder.  Scanning a
brace-free, dollar-free literal followed by `{{name}}` (with `name`
non-empty and brace-free) emits the literal, then the replacement — the
`%v` rendering of the resolved variable, or the match verbatim when the
variable does not resolve — and resumes after the match. -/
theorem interp_step_plain (c : VarContext) :
    ∀ (lit : List Char) (fuel : Nat) (name rest : List Char),
      '$' ∉ lit → '{' ∉ lit → name ≠ [] → '}' ∉ name →
      (lit ++ '{' :: '{' :: (name ++ '}' :: '}' :: rest)).length < fuel →
      VarContext.interpolateChars c fuel
          (lit ++ '{' :: '{' :: (name ++ '}' :: '}' :: rest)) =
        lit ++ (match VarContext.resolvePlaceholder c name with
                | some rep => rep.toList
                | none => '{' :: '{' :: (name ++ ['}', '}'])) ++
          VarContext.interpolateChars c (fuel - lit.length - 1) rest := by
  intro lit
  induction lit with
  | nil =>
    intro fuel name rest _ _ hne hnb hfuel
    obtain ⟨f', rfl⟩ : ∃ f'', fuel = f'' + 1 := ⟨fuel - 1, by omega⟩
    simp only [List.nil_append, VarContext.interpolateChars]
    rw [if_neg (by simp)]
    rw [if_pos (by simp)]
    simp only [List.drop_succ_cons, List.drop_zero]
    rw [takeWhile_stops_at_brace name ('}' :: rest) hnb,
      dropWhile_stops_at_brace name ('}' :: rest) hnb]
    rw [if_pos (by simp [hne])]
    simp
  | cons x lit' ih =>
    intro fuel name rest hd hb hne hnb hfuel
    obtain ⟨f', rfl⟩ : ∃ f'', fuel = f'' + 1 := ⟨fuel - 1, by omega⟩
    have hxd : x ≠ '$' := fun hx => hd (hx ▸ List.mem_cons_self x lit')
    have hxb : x ≠ '{' := fun hx => hb (hx ▸ List.mem_cons_self x lit')
    have hd' : '$' ∉ lit' := fun hm => hd (List.mem_cons_of_mem x hm)
    have hb' : '{' ∉ lit' := fun hm => hb (List.mem_cons_of_mem x hm)
    have hfuel' :
        (lit' ++ '{' :: '{' :: (name ++ '}' :: '}' :: rest)).length < f' := by
      simp only [List.cons_append, List.length_cons] at hfuel
      omega
    simp only [List.cons_append, VarContext.interpolateChars]
    rw [if_neg (by simp [hxd])]
    rw [if_neg (by simp [hxb])]
    simp only [List.append_eq]
    rw [ih f' name rest hd' hb' hne hnb hfuel']
    have harith : f' - lit'.length - 1 = f' + 1 - (x :: lit').length - 1 := by
      simp only [List.length_cons]
      omega
    rw [harith]

/-- Helper: stepping lemma for a `${{name}}` placeholder, the second
syntax accepted by the template pattern. -/
theorem interp_step_dollar (c : VarContext) :
    ∀ (lit : List Char) (fuel : Nat) (name rest : List Char),
      '$' ∉ lit → '{' ∉ lit → name ≠ [] → '}' ∉ name →
      (lit ++ '$' :: '{' :: '{' :: (name ++ '}' :: '}' :: rest)).length <
        fuel →
      VarContext.interpolateChars c fuel
          (lit ++ '$' :: '{' :: '{' :: (name ++ '}' :: '}' :: rest)) =
        lit ++ (match VarContext.resolvePlaceholder c name with
                | some rep => rep.toList
                | none => '$' :: '{' :: '{' :: (name ++ ['}', '}'])) ++
          VarContext.interpolateChars c (fuel - lit.length - 1) rest := by
  intro lit
  induction lit with
  | nil =>
    intro fuel name rest _ _ hne hnb hfuel
    obtain ⟨f', rfl⟩ : ∃ f'', fuel = f'' + 1 := ⟨fuel - 1, by omega⟩
    simp only [List.nil_append, VarContext.interpolateChars]
    rw [if_pos (by simp)]
    simp only [List.drop_succ_cons, List.drop_zero]
    rw [takeWhile_stops_at_brace name ('}' :: rest) hnb,
      dropWhile_stops_at_brace name ('}' :: rest) hnb]
    rw [if_pos (by simp [hne])]
    simp
  | cons x lit' ih =>
    intro fuel name rest hd hb hne hnb hfuel
    obtain ⟨f', rfl⟩ : ∃ f'', fuel = f'' + 1 := ⟨fuel - 1, by omega⟩
    have hxd : x ≠ '$' := fun hx => hd (hx ▸ List.mem_cons_self x lit')
    have hxb : x ≠ '{' := fun hx => hb (hx ▸ List.mem_cons_self x lit')
    have hd' : '$' ∉ lit' := fun hm => hd (List.mem_cons_of_mem x hm)
    have hb' : '{' ∉ lit' := fun hm => hb (List.mem_cons_of_mem x hm)
    have hfuel' :
        (lit' ++ '$' :: '{' :: '{' :: (name ++ '}' :: '}' :: rest)).length <
          f' := by
      simp only [List.cons_append, List.length_cons] at hfuel
      omega
    simp only [List.cons_append, VarContext.interpolateChars]
    rw [if_neg (by simp [hxd])]
    rw [if_neg (by simp [hxb])]
    simp only [List.append_eq]
    rw [ih f' name rest hd' hb' hne hnb hfuel']
    have harith : f' - lit'.length - 1 = f' + 1 - (x :: lit').length - 1 := by
      simp only [List.length_cons]
      omega
    rw [harith]

/-- C6: interpolation never returns an error, replaces each resolvable
placeholder (in `{{name}}` or `${{name}}` form) with the `%v` string
rendering of the resolved variable (`resolvePlaceholder` is exactly
trim + `env.`-strip + `GetNested` + `%v`), and leaves each unresolvable
placeholder verbatim with its braces intact, resuming the same scan after
the placeholder.  The literal prefix must be free of `$` and `{`, which is
what keeps it free of placeholder starts. -/
theorem interpolation_contract :
    (∀ (c : VarContext) (s : String), (c.InterpolateString s).2 = none) ∧
    (∀ (c : VarContext) (lit name rest : List Char) (rep : String),
      '$' ∉ lit → '{' ∉ lit → name ≠ [] → '}' ∉ name →
      VarContext.resolvePlaceholder c name = some rep →
      (c.InterpolateString
          (String.mk
            (lit ++ '{' :: '{' :: (name ++ '}' :: '}' :: rest)))).1.toList =
        lit ++ rep.toList ++ (c.InterpolateString (String.mk rest)).1.toList) ∧
    (∀ (c : VarContext) (lit name rest : List Char),
      '$' ∉ lit → '{' ∉ lit → name ≠ [] → '}' ∉ name →
      VarContext.resolvePlaceholder c name = none →
      (c.InterpolateString
          (String.mk
            (lit ++ '{' :: '{' :: (name ++ '}' :: '}' :: rest)))).1.toList =
        lit ++ '{' :: '{' :: (name ++ ['}', '}']) ++
          (c.InterpolateString (String.mk rest)).1.toList) ∧
    (∀ (c : VarContext) (lit name rest : List Char) (rep : String),
      '$' ∉ lit → '{' ∉ lit → name ≠ [] → '}' ∉ name →
      VarContext.resolvePlaceholder c name = some rep →
      (c.InterpolateString
          (String.mk
            (lit ++ '$' :: '{' :: '{' ::
              (name ++ '}' :: '}' :: rest)))).1.toList =
        lit ++ rep.toList ++ (c.InterpolateString (String.mk rest)).1.toList) ∧
    (∀ (c : VarContext) (lit name rest : List Char),
      '$' ∉ lit → '{' ∉ lit → name ≠ [] → '}' ∉ name →
      VarContext.resolvePlaceholder c name = none →
      (c.InterpolateString
          (String.mk
            (lit ++ '$' :: '{' :: '{' ::
              (name ++ '}' :: '}' :: rest)))).1.toList =
        lit ++ '$' :: '{' :: '{' :: (name ++ ['}', '}']) ++
          (c.InterpolateString (String.mk rest)).1.toList) := by
  refine ⟨fun c s => rfl, ?_, ?_, ?_, ?_⟩
  · intro c lit name rest rep hd hb hne hnb hres
    show VarContext.interpolateChars c
        ((lit ++ '{' :: '{' :: (name ++ '}' :: '}' :: rest)).length + 1)
        (lit ++ '{' :: '{' :: (name ++ '}' :: '}' :: rest)) =
      lit ++ rep.toList ++
        VarContext.interpolateChars c (rest.length + 1) rest
    rw [interp_step_plain c lit _ name rest hd hb hne hnb (by omega)]
    rw [hres]
    rw [interp_fuel_congr c rest.length
      ((lit ++ '{' :: '{' :: (name ++ '}' :: '}' :: rest)).length + 1 -
        lit.length - 1)
      (rest.length + 1) rest le_rfl (by simp [List.length_append]; omega)
      (by omega)]
  · intro c lit name rest hd hb hne hnb hres
    show VarContext.interpolateChars c
        ((lit ++ '{' :: '{' :: (name ++ '}' :: '}' :: rest)).length + 1)
        (lit ++ '{' :: '{' :: (name ++ '}' :: '}' :: rest)) =
      lit ++ '{' :: '{' :: (name ++ ['}', '}']) ++
        VarContext.interpolateChars c (rest.length + 1) rest
    rw [interp_step_plain c lit _ name rest hd hb hne hnb (by omega)]
    rw [hres]
    rw [interp_fuel_congr c rest.length
      ((lit ++ '{' :: '{' :: (name ++ '}' :: '}' :: rest)).length + 1 -
        lit.length - 1)
      (rest.length + 1) rest le_rfl (by simp [List.length_append]; omega)
      (by omega)]
  · intro c lit name rest rep hd hb hne hnb hres
    show VarContext.interpolateChars c
        ((lit ++ '$' :: '{' :: '{' ::
          (name ++ '}' :: '}' :: rest)).length + 1)
        (lit ++ '$' :: '{' :: '{' :: (name ++ '}' :: '}' :: rest)) =
      lit ++ rep.toList ++
        VarContext.interpolateChars c (rest.length + 1) rest
    rw [interp_step_dollar c lit _ name rest hd hb hne hnb (by omega)]
    rw [hres]
    rw [interp_fuel_congr c rest.length
      ((lit ++ '$' :: '{' :: '{' ::
        (name ++ '}' :: '}' :: rest)).length + 1 - lit.length - 1)
      (rest.length + 1) rest le_rfl (by simp [List.length_append]; omega)
      (by omega)]
  · intro c lit name rest hd hb hne hnb hres
    show VarContext.interpolateChars c
        ((lit ++ '$' :: '{' :: '{' ::
          (name ++ '}' :: '}' :: rest)).length + 1)
        (lit ++ '$' :: '{' :: '{' :: (name ++ '}' :: '}' :: rest)) =
      lit ++ '$' :: '{' :: '{' :: (name ++ ['}', '}']) ++
        VarContext.interpolateChars c (rest.length + 1) rest
    rw [interp_step_dollar c lit _ name rest hd hb hne hnb (by omega)]
    rw [hres]
    rw [interp_fuel_congr c rest.length
      ((lit ++ '$' :: '{' :: '{' ::
        (name ++ '}' :: '}' :: rest)).length + 1 - lit.length - 1)
      (rest.length + 1) rest le_rfl (by simp [List.length_append]; omega)
      (by omega)]

/-- Context binding `name` for the interpolation witness. -/
def nameCtx : VarContext :=
  { global := [], locals := [("name", .vstr "bob")], step := [] }

/-- C6 witness: the contract applied to concrete strings — no error, a
resolvable `{{name}}` and `${{name}}` replaced by the rendered value, an
unresolvable placeholder kept verbatim with braces intact. -/
theorem interpolation_contract_witness :
    (nameCtx.InterpolateString "hello \x7b\x7bname\x7d\x7d!").2 = none ∧
    (nameCtx.InterpolateString "hello \x7b\x7bname\x7d\x7d!").1.toList =
      "hello bob!".toList ∧
    (nameCtx.InterpolateString "$\x7b\x7bname\x7d\x7dx").1.toList =
      "bobx".toList ∧
    (nameCtx.InterpolateString "-\x7b\x7bmissing\x7d\x7d.").1.toList =
      "-\x7b\x7bmissing\x7d\x7d.".toList := by
  refine ⟨interpolation_contract.1 nameCtx _, ?_, ?_, ?_⟩
  · exact interpolation_contract.2.1 nameCtx "hello ".toList "name".toList
      "!".toList "bob" (by decide) (by decide) (by decide) (by decide) rfl
  · exact interpolation_contract.2.2.2.1 nameCtx [] "name".toList
      "x".toList "bob" (by decide) (by decide) (by decide) (by decide) rfl
  · exact interpolation_contract.2.2.1 nameCtx "-".toList "missing".toList
      ".".toList (by decide) (by decide) (by decide) (by decide) rfl

/-- C8 witness: the documented coercion instances, obtained through the
equality-semantics theorem — integer 200 equals float 200.0 via the numeric
branch, string "200" equals number 200 via the string-form fallback. -/
theorem equality_operator_witness :
    (Assertions.compareEqual (.vint 200) (.vfloat 200)).1 = true ∧
    (Assertions.compareEqual (.vstr "200") (.vint 200)).1 = true :=
  ⟨(equality_operator_coercion_semantics.1 (.vint 200) (.vfloat 200)).mpr
      (by decide),
   (equality_operator_coercion_semantics.1 (.vstr "200") (.vint 200)).mpr
      (by decide)⟩
